import Mathlib

/-!
Verification development for the AI training-recommendation engine.

The development shallowly embeds the two algorithmic cores of the repository:
the hybrid recommendation engine (`src/unnamed/part_001`, class
`RecommendationEngine`) and the multi-method skill extractor
(`src/src/services/SkillExtractor.js`, class `SkillExtractor`).

Modelling conventions:
- JavaScript numbers are embedded as rationals (`ℚ`); all arithmetic the
  code performs (+, *, /, comparisons) is exact on the values the claims
  are about.  `Math.sqrt` is an external floating-point primitive, so the
  engine is parameterized over an arbitrary square-root function
  `sqrt : ℚ → ℚ`; every theorem below holds for every such function.
- JavaScript strings are embedded as `List Char` (`Chars`); `String`
  literals are converted with `String.toList`.
- The external NLP library (`compromise`), the regular-expression engine
  behind the eleven pattern templates, and the section-header scanner are
  external to the extractor's own logic; the candidate *spans* they
  deliver are taken as parameters, and everything the extractor itself
  does with them (cleaning, validity checks, catalog matching, confidence
  assignment, deduplication) is embedded from the source.  Word-boundary
  matching for a literal pattern (the only regex feature the direct-match
  and context-window code relies on) is embedded directly.
- Asynchronous store reads (`User.find`, `Course.find`) are reads of an
  immutable request snapshot `Env`; the cache is explicit state threaded
  through `generateRecommendations`.
-/

namespace JsStr

/-- A JavaScript string, embedded as a list of characters. -/
abbrev Chars := List Char

/-- Boolean list-prefix test (mirrors comparing a pattern against a
position of the subject string). -/
def isPrefB : Chars → Chars → Bool
  | [], _ => true
  | _ :: _, [] => false
  | a :: as, b :: bs => a == b && isPrefB as bs

/-- JavaScript `String.prototype.includes`: substring test. -/
def includesSub (pat : Chars) : Chars → Bool
  | [] => pat.isEmpty
  | c :: cs => isPrefB pat (c :: cs) || includesSub pat cs

/-- JavaScript `\w` character class: `[A-Za-z0-9_]`. -/
def isWordChar (c : Char) : Bool :=
  (('a' ≤ c && c ≤ 'z') || ('A' ≤ c && c ≤ 'Z') || ('0' ≤ c && c ≤ '9') || c == '_')

/-- JavaScript `\s` on the character set the repository uses. -/
def isSpaceChar (c : Char) : Bool :=
  c == ' ' || c == '\t' || c == '\n' || c == '\r'

def isWordOpt : Option Char → Bool
  | none => false
  | some c => isWordChar c

/-- Occurrence scan for `new RegExp("\\b" ++ escape pat ++ "\\b", "g")`:
positions where the literal pattern matches with a word boundary on both
sides.  `prev` is the character before the current position (`none` at the
start of the string). -/
def occsAux (pat : Chars) : Option Char → Chars → Nat → List Nat
  | _, [], _ => []
  | prev, c :: cs, i =>
    (if isPrefB pat (c :: cs)
        && (isWordOpt prev != isWordOpt (some c))
        && (isWordOpt pat.getLast? != isWordOpt ((c :: cs).drop pat.length).head?)
      then [i] else [])
      ++ occsAux pat (some c) cs (i + 1)

/-- All word-boundary occurrences of a nonempty literal pattern. -/
def boundaryOccs (pat s : Chars) : List Nat :=
  occsAux pat none s 0

/-- ASCII lower-casing, `String.prototype.toLowerCase` on the data the
repository handles. -/
def toLowerChars (s : Chars) : Chars := s.map Char.toLower

/-- Drop leading characters satisfying `p` (used for `trim`). -/
def trimChars (s : Chars) : Chars :=
  ((s.dropWhile isSpaceChar).reverse.dropWhile isSpaceChar).reverse

/-- Split a string at every character satisfying `sep` (JavaScript
`String.prototype.split` with a single character class). -/
def splitOn (sep : Char → Bool) : Chars → List Chars
  | [] => [[]]
  | c :: cs =>
    let r := splitOn sep cs
    if sep c then [] :: r
    else match r with
      | [] => [[c]]
      | h :: t => (c :: h) :: t

theorem length_dropWhile_le (p : Char → Bool) (l : List Char) :
    (l.dropWhile p).length ≤ l.length := by
  induction l with
  | nil => simp
  | cons a l ih =>
    rw [List.dropWhile_cons]
    split
    · exact Nat.le_succ_of_le ih
    · simp

/-- Insertion-order duplicate removal, `[...new Set(xs)]`. -/
def dedupFirst [BEq α] : List α → List α
  | [] => []
  | a :: as => a :: dedupFirst (as.filter (fun b => !(a == b)))
termination_by l => l.length
decreasing_by
  simp only [List.length_cons]
  exact Nat.lt_succ_of_le (List.length_filter_le _ _)

/-- Stable descending insertion by a rational measure: the element is
placed before the first strictly smaller one.  Extensionally equal to the
stable `Array.prototype.sort((a, b) => f b - f a)` the source uses. -/
def insertDesc (f : α → ℚ) (x : α) : List α → List α
  | [] => [x]
  | y :: ys => if f x ≥ f y then x :: y :: ys else y :: insertDesc f x ys

/-- Stable descending sort by a rational measure. -/
def sortDesc (f : α → ℚ) : List α → List α
  | [] => []
  | x :: xs => insertDesc f x (sortDesc f xs)

/-- Model of the external `natural.WordTokenizer`: maximal alphanumeric
runs of the string. -/
def tokenize : Chars → List Chars
  | [] => []
  | c :: cs =>
    if isWordChar c then
      (c :: cs.takeWhile isWordChar) :: tokenize (cs.dropWhile isWordChar)
    else tokenize cs
termination_by l => l.length
decreasing_by
  · simp only [List.length_cons]
    exact Nat.lt_succ_of_le (length_dropWhile_le _ _)
  · simp only [List.length_cons]
    exact Nat.lt_succ_of_le (Nat.le_refl _)

end JsStr

namespace REng

open JsStr

/-- A course record (content catalog snapshot). -/
structure Course where
  id : String
  title : String
  description : String
  skills : List String
  category : String
  provider : String
  difficulty : String
deriving DecidableEq, Repr, Inhabited

/-- A learning-history entry.  Per the `learningHistorySchema` in
`src/src/models/User.js` an entry carries `courseId`, `status`, `progress`,
`timeSpent`, an optional `rating`, and optional `category`/`provider`
strings; it has no `difficulty` field. -/
structure HistoryEntry where
  courseId : String
  status : String
  progress : ℚ
  timeSpent : ℚ
  rating : Option ℚ
  category : Option String
  provider : Option String
deriving DecidableEq, Repr

structure SkillEntry where
  name : String
  level : String
deriving DecidableEq, Repr

structure CareerGoal where
  title : String
  requiredSkills : List String
  status : String
deriving DecidableEq, Repr

structure Prefs where
  difficulty : Option String
deriving DecidableEq, Repr

structure Profile where
  skills : List SkillEntry
  interests : List String
  careerGoals : List CareerGoal
  learningPreferences : Prefs
deriving DecidableEq, Repr

structure User where
  id : String
  profile : Profile
  learningHistory : List HistoryEntry
deriving DecidableEq, Repr

/-- The immutable user/course snapshot a request reads. -/
structure Env where
  users : List User
  courses : List Course
deriving DecidableEq, Repr

/-- A per-source scored candidate. -/
structure Candidate where
  courseId : String
  score : ℚ
  reason : String
deriving DecidableEq, Repr

/-- A contributing-source record attached to a combined candidate. -/
structure SourceEntry where
  stype : String
  score : ℚ
  reason : String
deriving DecidableEq, Repr

/-- A combined candidate produced by `combineRecommendations`. -/
structure Combined where
  courseId : String
  score : ℚ
  sources : List SourceEntry
deriving DecidableEq, Repr

structure Explanation where
  primaryReason : String
  sources : List SourceEntry
  confidence : ℚ
deriving DecidableEq, Repr

/-- An enriched output recommendation. -/
structure Enriched where
  courseId : String
  score : ℚ
  course : Option Course
  explanation : Option Explanation
deriving DecidableEq, Repr

/-- Options of `generateRecommendations` (source defaults). -/
structure RecOptions where
  limit : Nat := 10
  includeExplanations : Bool := true
  filterCompleted : Bool := true
  diversityFactor : ℚ := 0.3
deriving DecidableEq, Repr

structure Trend where
  skill : String
  growthRate : ℚ
  demandLevel : String
deriving DecidableEq, Repr

/-- Fixed hybrid weights (`this.weights`). -/
def weightCollaborative : ℚ := 0.35
def weightContentBased : ℚ := 0.35
def weightMarketDriven : ℚ := 0.20
def weightBehavioral : ℚ := 0.10

/-- Embedding of `this.minSimilarityThreshold`. -/
def minSimilarityThreshold : ℚ := 0.1

/-- Embedding of `this.maxRecommendations`. -/
def maxRecommendations : Nat := 50

/-- Case-insensitive substring test on `String`s. -/
def containsCI (hay pat : String) : Bool :=
  includesSub (toLowerChars pat.toList) (toLowerChars hay.toList)

/-- Lower-cased copy of a string. -/
def lowerStr (s : String) : String :=
  String.mk (toLowerChars s.toList)

/-- Embedding of `cosineSimilarity(vecA, vecB)`.  The zero-norm (and length-mismatch)
guards return 0 before any square root or division is taken; `sqrt`
abstracts the external `Math.sqrt`. -/
def cosineSimilarity (sqrt : ℚ → ℚ) (vecA vecB : List ℚ) : ℚ :=
  if vecA.length ≠ vecB.length then 0
  else
    let dotProduct := ((vecA.zip vecB).map (fun p => p.1 * p.2)).sum
    let normA := (vecA.map (fun a => a * a)).sum
    let normB := (vecB.map (fun b => b * b)).sum
    if normA = 0 ∨ normB = 0 then 0
    else dotProduct / (sqrt normA * sqrt normB)

/-- Embedding of `calculateTFIDFSimilarity(text1, text2)`: term-frequency cosine over
the union vocabulary (the source's approximation of TF-IDF). -/
def calculateTFIDFSimilarity (sqrt : ℚ → ℚ) (text1 text2 : Chars) : ℚ :=
  let tokens1 := tokenize (toLowerChars text1)
  let tokens2 := tokenize (toLowerChars text2)
  if tokens1.isEmpty || tokens2.isEmpty then 0
  else
    let allTokens := dedupFirst (tokens1 ++ tokens2)
    let vector1 := allTokens.map (fun tk => ((tokens1.filter (fun t => t == tk)).length : ℚ))
    let vector2 := allTokens.map (fun tk => ((tokens2.filter (fun t => t == tk)).length : ℚ))
    cosineSimilarity sqrt vector1 vector2

/-- Embedding of `calculateSkillSimilarity(userSkills, courseSkills)`: substring-aware
overlap over the union of lower-cased skill names. -/
def calculateSkillSimilarity (userSkills courseSkills : List String) : ℚ :=
  if userSkills.isEmpty || courseSkills.isEmpty then 0
  else
    let userLower := userSkills.map lowerStr
    let courseLower := courseSkills.map lowerStr
    let intersection := userLower.filter (fun sk =>
      courseLower.any (fun cs => containsCI cs sk || containsCI sk cs))
    let union := dedupFirst (userLower ++ courseLower)
    (intersection.length : ℚ) / (union.length : ℚ)

/-- Embedding of `calculateDifficultyMatch(user, course)`. -/
def calculateDifficultyMatch (user : User) (course : Course) : ℚ :=
  let userPreference := user.profile.learningPreferences.difficulty.getD ("mixed")
  if userPreference = "mixed" then 0.5
  else
    let preferredLevels :=
      if userPreference = "beginner-friendly" then ["beginner"]
      else if userPreference = "challenging" then ["advanced", "expert"]
      else [course.difficulty]
    if preferredLevels.contains course.difficulty then 1 else 0

/-- Interaction weight of one history entry (`buildInteractionMatrix`
inner loop): completion/progress base, scaled by rating and time spent,
capped at 2. -/
def interactionWeight (h : HistoryEntry) : ℚ :=
  let w : ℚ :=
    if h.status = "completed" then 1.0
    else if h.status = "in-progress" then h.progress / 100
    else 0
  let w := match h.rating with
    | some r => if r ≠ 0 then w * (r / 5) else w
    | none => w
  let w := if h.timeSpent > 0 then w * min (h.timeSpent / 3600) 2 else w
  min w 2

/-- Embedding of `buildInteractionMatrix(users, courses)`: one row per user, one column
per course; later history entries for the same course overwrite earlier
ones, exactly as the source's indexed assignment does. -/
def buildInteractionMatrix (users : List User) (courses : List Course) :
    List (List ℚ) :=
  users.map (fun u =>
    u.learningHistory.foldl (fun row h =>
      match courses.findIdx? (fun c => c.id = h.courseId) with
      | some i => row.set i (interactionWeight h)
      | none => row)
      (List.replicate courses.length (0 : ℚ)))

structure UserSim where
  userIndex : Nat
  similarity : ℚ
deriving DecidableEq, Repr

/-- Embedding of `calculateUserSimilarities(matrix, userIndex)`: cosine similarity of
the requester's row against every other row, thresholded, top 20. -/
def calculateUserSimilarities (sqrt : ℚ → ℚ) (matrix : List (List ℚ))
    (userIndex : Nat) : List UserSim :=
  let userRow := matrix.getD userIndex []
  let sims := (List.range matrix.length).filterMap (fun i =>
    if i = userIndex then none
    else
      let s := cosineSimilarity sqrt userRow (matrix.getD i [])
      if s > minSimilarityThreshold then some ⟨i, s⟩ else none)
  (sortDesc (fun x => x.similarity) sims).take 20

/-- Embedding of `generateCollaborativeRecs(matrix, similarities, userIndex, courses)`. -/
def generateCollaborativeRecs (matrix : List (List ℚ)) (sims : List UserSim)
    (userIndex : Nat) (courses : List Course) : List Candidate :=
  let userRow := matrix.getD userIndex []
  (List.range courses.length).filterMap (fun courseIndex =>
    if userRow.getD courseIndex 0 > 0 then none
    else
      let contributing := sims.filter (fun s =>
        (matrix.getD s.userIndex []).getD courseIndex 0 > 0)
      let weightedSum := (contributing.map (fun s =>
        s.similarity * ((matrix.getD s.userIndex []).getD courseIndex 0))).sum
      let similaritySum := (contributing.map (fun s => s.similarity)).sum
      if similaritySum > 0 then
        let predictedRating := weightedSum / similaritySum
        if predictedRating > minSimilarityThreshold then
          some ⟨(courses.getD courseIndex default).id, predictedRating,
                "Users with similar interests also liked this course"⟩
        else none
      else none)

/-- Embedding of `collaborativeFiltering(userId)` over the request snapshot. -/
def collaborativeFiltering (sqrt : ℚ → ℚ) (env : Env) (userId : String) :
    List Candidate :=
  let users := env.users
  let courses := env.courses
  if users.length < 2 || courses.length < 2 then []
  else
    let matrix := buildInteractionMatrix users courses
    match users.findIdx? (fun u => u.id = userId) with
    | none => []
    | some userIndex =>
      generateCollaborativeRecs matrix
        (calculateUserSimilarities sqrt matrix userIndex) userIndex courses

/-- JavaScript `Math.round`. -/
def jsRound (q : ℚ) : ℤ := ⌊q + 1/2⌋

/-- Embedding of `contentBasedFiltering(user)` over the request snapshot. -/
def contentBasedFiltering (sqrt : ℚ → ℚ) (env : Env) (user : User) :
    List Candidate :=
  if env.courses.isEmpty then []
  else
    let userSkills := String.intercalate (" ") (user.profile.skills.map (·.name))
    let userInterests := String.intercalate (" ") user.profile.interests
    let userGoals := String.intercalate (" ")
      (user.profile.careerGoals.map (fun g =>
        g.title ++ " " ++ String.intercalate (" ") g.requiredSkills))
    let userProfile :=
      toLowerChars (userSkills ++ " " ++ userInterests ++ " " ++ userGoals).toList
    let similarities := env.courses.map (fun course =>
      let courseContent := toLowerChars
        (course.title ++ " " ++ course.description ++ " "
          ++ String.intercalate (" ") course.skills).toList
      let tfidfSim := calculateTFIDFSimilarity sqrt userProfile courseContent
      let skillSim := calculateSkillSimilarity
        (user.profile.skills.map (·.name)) course.skills
      let difficultyMatch := calculateDifficultyMatch user course
      let score := tfidfSim * 0.4 + skillSim * 0.4 + difficultyMatch * 0.2
      Candidate.mk course.id score
        ("Content similarity based on skills and interests ("
          ++ toString (jsRound (score * 100)) ++ "% match)"))
    ((sortDesc (fun c => c.score)
        (similarities.filter (fun s => s.score > minSimilarityThreshold))).take
      maxRecommendations)

/-- Embedding of `getMarketData()`: the static mock trend table of the source. -/
def getMarketData : List Trend :=
  [⟨"artificial intelligence", 45, "high"⟩,
   ⟨"machine learning", 38, "high"⟩,
   ⟨"cloud computing", 32, "high"⟩,
   ⟨"data science", 28, "medium"⟩,
   ⟨"cybersecurity", 25, "high"⟩]

/-- Embedding of `calculateMarketScore(trend, userProfile)`. -/
def calculateMarketScore (trend : Trend) (profile : Profile) : ℚ :=
  let score := trend.growthRate / 100
  let score := score +
    (if trend.demandLevel = "high" then 0.3
     else if trend.demandLevel = "medium" then 0.1 else 0)
  let firstWord := (lowerStr trend.skill).toList.takeWhile (fun c => c ≠ ' ')
  let hasRelatedSkill := profile.skills.any (fun sk =>
    includesSub firstWord (toLowerChars sk.name.toList))
  let score := if hasRelatedSkill then score + 0.2 else score
  min score 1

/-- Embedding of `generateSkillGapRecommendations(user)`: goal-driven fixed-score
candidates for unmet required skills of active career goals. -/
def generateSkillGapRecommendations (env : Env) (user : User) :
    List Candidate :=
  user.profile.careerGoals.foldl (fun acc goal =>
    if goal.status ≠ "active" then acc
    else
      let userSkills := user.profile.skills.map (fun s => lowerStr s.name)
      goal.requiredSkills.foldl (fun acc requiredSkill =>
        let hasSkill := userSkills.any (fun us =>
          containsCI us requiredSkill || containsCI requiredSkill us)
        if hasSkill then acc
        else
          acc ++ (env.courses.filter (fun c =>
              c.skills.any (fun s => containsCI s requiredSkill))).map
            (fun c => Candidate.mk c.id 0.8
              ("Required for your career goal: " ++ goal.title))) acc) []

/-- Embedding of `marketDrivenRecommendations(user)` over the snapshot and the static
market mock. -/
def marketDrivenRecommendations (env : Env) (user : User) : List Candidate :=
  let trendRecs := getMarketData.foldl (fun acc trend =>
    let skillName := lowerStr trend.skill
    let userSkill := user.profile.skills.find? (fun s =>
      lowerStr s.name == skillName
        && (s.level == "advanced" || s.level == "expert"))
    match userSkill with
    | some _ => acc
    | none =>
      let courses := env.courses.filter (fun c =>
        c.skills.any (fun s => containsCI s skillName))
      acc ++ courses.map (fun course =>
        Candidate.mk course.id (calculateMarketScore trend user.profile)
          ("High market demand for " ++ trend.skill ++ " ("
            ++ toString trend.growthRate ++ "% growth, "
            ++ trend.demandLevel ++ " demand)"))) []
  let recommendations :=
    if user.profile.careerGoals.isEmpty then trendRecs
    else trendRecs ++ generateSkillGapRecommendations env user
  (sortDesc (fun c => c.score) recommendations).take maxRecommendations

/-- Insertion-order counting map (a plain JavaScript object used as a
counter preserves first-seen key order). -/
def bumpCount (acc : List (String × Nat)) (key : String) :
    List (String × Nat) :=
  if acc.any (fun p => p.1 = key) then
    acc.map (fun p => if p.1 = key then (p.1, p.2 + 1) else p)
  else acc ++ [(key, 1)]

/-- Embedding of `analyzePreferredCategories(completedCourses)`: top 3 categories by
count, ties in first-seen order. -/
def analyzePreferredCategories (completed : List HistoryEntry) : List String :=
  let counts := completed.foldl (fun acc h =>
    match h.category with
    | some c => bumpCount acc c
    | none => acc) []
  ((sortDesc (fun p => (p.2 : ℚ)) counts).take 3).map (fun p => p.1)

/-- Embedding of `analyzePreferredProviders(completedCourses)`: top 2 providers. -/
def analyzePreferredProviders (completed : List HistoryEntry) : List String :=
  let counts := completed.foldl (fun acc h =>
    match h.provider with
    | some p => bumpCount acc p
    | none => acc) []
  ((sortDesc (fun p => (p.2 : ℚ)) counts).take 2).map (fun p => p.1)

/-- Embedding of `analyzePreferredDifficulty(completedCourses)`: learning-history
entries carry no `difficulty` field (see `learningHistorySchema`), so the
count map the source builds stays empty and the default is returned. -/
def analyzePreferredDifficulty (_completed : List HistoryEntry) : String :=
  "intermediate"

/-- Embedding of `behavioralRecommendations(user)` over the snapshot. -/
def behavioralRecommendations (env : Env) (user : User) : List Candidate :=
  if user.learningHistory.isEmpty then []
  else
    let completedCourses :=
      user.learningHistory.filter (fun h => h.status == "completed")
    let preferredCategories := analyzePreferredCategories completedCourses
    let preferredProviders := analyzePreferredProviders completedCourses
    let preferredDifficulty := analyzePreferredDifficulty completedCourses
    let courses := env.courses.filter (fun c =>
      preferredCategories.contains c.category
        || preferredProviders.contains c.provider
        || c.difficulty == preferredDifficulty)
    let recommendations := courses.filterMap (fun course =>
      let catPart : ℚ :=
        if preferredCategories.contains course.category then 0.4 else 0
      let provPart : ℚ :=
        if preferredProviders.contains course.provider then 0.3 else 0
      let diffPart : ℚ :=
        if course.difficulty = preferredDifficulty then 0.3 else 0
      let score := catPart + provPart + diffPart
      let reasons :=
        (if preferredCategories.contains course.category then
          ["matches your preferred category: " ++ course.category] else [])
        ++ (if preferredProviders.contains course.provider then
          ["from your preferred provider: " ++ course.provider] else [])
        ++ (if course.difficulty = preferredDifficulty then
          ["matches your preferred difficulty level"] else [])
      if score > 0 then
        some (Candidate.mk course.id score
          ("Based on your learning patterns: "
            ++ String.intercalate (", ") reasons))
      else none)
    (sortDesc (fun c => c.score) recommendations).take maxRecommendations

/-- One input of `combineRecommendations`. -/
structure SourceInput where
  recs : List Candidate
  weight : ℚ
  stype : String
deriving DecidableEq, Repr

/-- One step of the merge map: add a candidate of one source into the
insertion-ordered `Map` keyed by courseId. -/
def combineStep (weight : ℚ) (stype : String) (acc : List Combined)
    (rec : Candidate) : List Combined :=
  if acc.any (fun c => c.courseId = rec.courseId) then
    acc.map (fun c =>
      if c.courseId = rec.courseId then
        { c with
          score := c.score + rec.score * weight
          sources := c.sources ++ [⟨stype, rec.score, rec.reason⟩] }
      else c)
  else acc ++ [⟨rec.courseId, rec.score * weight, [⟨stype, rec.score, rec.reason⟩]⟩]

/-- Embedding of `combineRecommendations(sources)`: weighted merge by courseId, then
descending sort by combined score. -/
def combineRecommendations (sources : List SourceInput) : List Combined :=
  let combined := sources.foldl (fun acc src =>
    src.recs.foldl (combineStep src.weight src.stype) acc) []
  sortDesc (fun c => c.score) combined

/-- Embedding of `calculateCourseSimilarity(course1, course2)`. -/
def calculateCourseSimilarity (course1 course2 : Course) : ℚ :=
  (if course1.category = course2.category then (0.4 : ℚ) else 0)
    + calculateSkillSimilarity course1.skills course2.skills * 0.4
    + (if course1.difficulty = course2.difficulty then (0.2 : ℚ) else 0)

/-- Course lookup in the snapshot (the `courseMap` of the source). -/
def findCourse (env : Env) (id : String) : Option Course :=
  env.courses.find? (fun c => c.id = id)

/-- Loop body of `applyDiversityFilter`: a candidate whose course does
not resolve is skipped; otherwise it is accepted when its similarity to
every already-accepted candidate (whose course resolves) is not above
`1 - diversityFactor`. -/
def diversityStep (env : Env) (diversityFactor : ℚ)
    (acc : List Combined) (cand : Combined) : List Combined :=
  match findCourse env cand.courseId with
  | none => acc
  | some candidateCourse =>
    let isDiverse := acc.all (fun sel =>
      match findCourse env sel.courseId with
      | none => true
      | some selectedCourse =>
        !(calculateCourseSimilarity candidateCourse selectedCourse
            > 1 - diversityFactor))
    if isDiverse then acc ++ [cand] else acc

/-- Embedding of `applyDiversityFilter(recommendations, diversityFactor)`: the head is
always kept and the remaining candidates pass through `diversityStep`. -/
def applyDiversityFilter (env : Env) (recs : List Combined)
    (diversityFactor : ℚ) : List Combined :=
  if recs.length ≤ 1 then recs
  else
    match recs with
    | [] => []
    | top :: rest => rest.foldl (diversityStep env diversityFactor) [top]

/-- Embedding of `filterCompletedCourses(recommendations, learningHistory)`. -/
def filterCompletedCourses (recs : List Combined)
    (learningHistory : List HistoryEntry) : List Combined :=
  let completedCourseIds :=
    (learningHistory.filter (fun h => h.status = "completed")).map
      (fun h => h.courseId)
  recs.filter (fun rec => !(completedCourseIds.contains rec.courseId))

/-- Embedding of `enrichRecommendations(recommendations, includeExplanations)`: attach
the course record and an explanation; drop entries whose course is
missing from the store. -/
def enrichRecommendations (env : Env) (includeExplanations : Bool)
    (recs : List Combined) : List Enriched :=
  (recs.map (fun rec =>
    let course := findCourse env rec.courseId
    let explanation :=
      if includeExplanations then
        some (Explanation.mk
          (match rec.sources.head? with
           | some s => if s.reason = "" then
               "Recommended based on your profile" else s.reason
           | none => "Recommended based on your profile")
          rec.sources (min rec.score 1))
      else none
    Enriched.mk rec.courseId rec.score course explanation)).filter
    (fun rec => rec.course ≠ none)

/-- The advisory cache, keyed by `(userId, options)` (the source key is
the string `recommendations:userId:JSON.stringify(options)`, injective in
the pair). -/
abbrev Cache := List ((String × RecOptions) × List Enriched)

def cacheGet (cache : Cache) (k : String × RecOptions) :
    Option (List Enriched) :=
  (cache.find? (fun e => e.1 = k)).map (fun e => e.2)

def cacheSet (cache : Cache) (k : String × RecOptions)
    (v : List Enriched) : Cache :=
  (k, v) :: cache

/-- Embedding of `generateRecommendations(userId, options)`: cache lookup, snapshot
scoring fan-out, weighted combination, diversity and completed filters,
truncation, enrichment, cache write.  Returns the response (or the
propagated error) together with the cache state after the call. -/
def generateRecommendations (sqrt : ℚ → ℚ) (env : Env) (cache : Cache)
    (userId : String) (opts : RecOptions) :
    Except String (List Enriched) × Cache :=
  let cacheKey := (userId, opts)
  match cacheGet cache cacheKey with
  | some cachedRecs => (.ok cachedRecs, cache)
  | none =>
    match env.users.find? (fun u => u.id = userId) with
    | none => (.error ("User not found"), cache)
    | some user =>
      let collaborativeRecs := collaborativeFiltering sqrt env userId
      let contentRecs := contentBasedFiltering sqrt env user
      let marketRecs := marketDrivenRecommendations env user
      let behavioralRecs := behavioralRecommendations env user
      let combinedRecs := combineRecommendations
        [⟨collaborativeRecs, weightCollaborative, "collaborative"⟩,
         ⟨contentRecs, weightContentBased, "content-based"⟩,
         ⟨marketRecs, weightMarketDriven, "market-driven"⟩,
         ⟨behavioralRecs, weightBehavioral, "behavioral"⟩]
      let afterDiversity :=
        applyDiversityFilter env combinedRecs opts.diversityFactor
      let afterCompleted :=
        if opts.filterCompleted then
          filterCompletedCourses afterDiversity user.learningHistory
        else afterDiversity
      let limited := afterCompleted.take opts.limit
      let enrichedRecs :=
        enrichRecommendations env opts.includeExplanations limited
      (.ok enrichedRecs, cacheSet cache cacheKey enrichedRecs)

end REng

namespace SkillX

open JsStr

/-- The flattened skills catalog (`this.allSkills`), in the exact category
order of the constructor (duplicates across categories included). -/
def allSkills : List String :=
  ["javascript", "python", "java", "c++", "c#", "php", "ruby", "go", "rust",
   "swift", "kotlin", "scala", "r", "matlab", "perl", "shell", "bash",
   "powershell", "typescript", "dart", "elixir", "haskell", "clojure", "f#",
   "objective-c", "assembly", "cobol", "fortran",
   "html", "css", "sass", "less", "bootstrap", "tailwind", "react",
   "angular", "vue", "svelte", "jquery", "node.js", "express", "next.js",
   "nuxt.js", "gatsby", "webpack", "vite", "parcel", "babel", "eslint",
   "prettier", "jest", "cypress", "selenium",
   "django", "flask", "fastapi", "spring", "spring boot", "laravel",
   "symfony", "rails", "asp.net", "express.js", "koa", "nestjs", "gin",
   "echo", "fiber", "actix", "rocket",
   "mysql", "postgresql", "mongodb", "redis", "elasticsearch", "cassandra",
   "dynamodb", "sqlite", "oracle", "sql server", "mariadb", "couchdb",
   "neo4j", "influxdb", "clickhouse",
   "aws", "azure", "gcp", "google cloud", "docker", "kubernetes", "jenkins",
   "terraform", "ansible", "puppet", "chef", "vagrant", "helm", "istio",
   "prometheus", "grafana", "elk stack", "datadog", "new relic", "splunk",
   "nagios", "zabbix",
   "machine learning", "deep learning", "artificial intelligence",
   "data analysis", "data science", "pandas", "numpy", "scipy",
   "scikit-learn", "tensorflow", "pytorch", "keras", "opencv", "nltk",
   "spacy", "matplotlib", "seaborn", "plotly", "tableau", "power bi",
   "jupyter", "apache spark", "hadoop", "kafka", "airflow",
   "ios development", "android development", "react native", "flutter",
   "xamarin", "ionic", "cordova", "phonegap", "swift", "objective-c",
   "kotlin", "java android",
   "ui design", "ux design", "user experience", "user interface", "figma",
   "sketch", "adobe xd", "photoshop", "illustrator", "indesign",
   "after effects", "premiere pro", "blender", "3d modeling", "animation",
   "prototyping", "wireframing", "user research",
   "project management", "agile", "scrum", "kanban", "lean", "six sigma",
   "pmp", "product management", "business analysis",
   "requirements gathering", "stakeholder management", "risk management",
   "change management", "team leadership", "strategic planning",
   "leadership", "communication", "teamwork", "problem solving",
   "critical thinking", "creativity", "adaptability", "time management",
   "conflict resolution", "negotiation", "presentation skills",
   "public speaking", "emotional intelligence", "mentoring", "coaching",
   "decision making", "analytical thinking", "attention to detail",
   "cybersecurity", "information security", "network security",
   "application security", "penetration testing", "ethical hacking",
   "vulnerability assessment", "incident response", "forensics",
   "compliance", "risk assessment", "security architecture", "cryptography",
   "networking", "tcp/ip", "dns", "dhcp", "vpn", "firewall",
   "load balancing", "routing", "switching", "wireless",
   "network troubleshooting", "network design", "network monitoring",
   "network automation", "sdn", "network virtualization"]

/-- An extraction candidate before deduplication.  The per-method extra
metadata fields of the source (`occurrences`, `matchedWords`, `pattern`,
`originalTerm`) do not influence any later computation and are omitted. -/
structure Candidate where
  name : String
  confidence : ℚ
  method : String
deriving DecidableEq, Repr

/-- Characters the preprocessing regex keeps
(`[^\w\s.,;:()\-+#]` is replaced by a space). -/
def keepPreprocessChar (c : Char) : Bool :=
  isWordChar c || isSpaceChar c
    || c == '.' || c == ',' || c == ';' || c == ':' || c == '('
    || c == ')' || c == '-' || c == '+' || c == '#'

/-- Collapse every whitespace run to a single space (`\s+` → a space). -/
def collapseSpaces : Chars → Chars
  | [] => []
  | c :: cs =>
    if isSpaceChar c then ' ' :: collapseSpaces (cs.dropWhile isSpaceChar)
    else c :: collapseSpaces cs
termination_by l => l.length
decreasing_by
  · simp only [List.length_cons]
    exact Nat.lt_succ_of_le (length_dropWhile_le _ _)
  · simp only [List.length_cons]
    exact Nat.lt_succ_of_le (Nat.le_refl _)

/-- Embedding of `preprocessText(text)`. -/
def preprocessChars (s : Chars) : Chars :=
  trimChars (collapseSpaces (s.map (fun c =>
    if keepPreprocessChar c then c else ' ')))

/-- Embedding of `extractDirectMatches(text)`: exact word-bounded catalog matches at
confidence 0.9 plus partial matches of compound entries at
`0.7 × matchedFraction`. -/
def extractDirectMatches (text : Chars) : List Candidate :=
  let textLower := toLowerChars text
  allSkills.foldl (fun acc skill =>
    let skillLower := toLowerChars skill.toList
    let acc :=
      if includesSub skillLower textLower then
        if !(boundaryOccs skillLower textLower).isEmpty then
          acc ++ [⟨skill, 0.9, "direct_match"⟩]
        else acc
      else acc
    if skill.toList.contains ' ' then
      let skillWords := splitOn (fun c => c == ' ') skill.toList
      let matchedWords := skillWords.filter (fun w =>
        includesSub (toLowerChars w) textLower)
      if (matchedWords.length : ℚ) ≥ (skillWords.length : ℚ) * 0.7 then
        acc ++ [⟨skill,
          0.7 * ((matchedWords.length : ℚ) / (skillWords.length : ℚ)),
          "partial_match"⟩]
      else acc
    else acc) []

/-- Strip of a leading `(and|or|the|a|an)\s+` (case-insensitive, regex
alternation order). -/
def dropLeadArticle (item : Chars) : Chars :=
  let lower := toLowerChars item
  let fits := fun (w : Chars) =>
    isPrefB w lower
      && (match item.drop w.length with
          | c :: _ => isSpaceChar c
          | [] => false)
  if fits ("and".toList) then (item.drop 3).dropWhile isSpaceChar
  else if fits ("or".toList) then (item.drop 2).dropWhile isSpaceChar
  else if fits ("the".toList) then (item.drop 3).dropWhile isSpaceChar
  else if fits ("a".toList) then (item.drop 1).dropWhile isSpaceChar
  else if fits ("an".toList) then (item.drop 2).dropWhile isSpaceChar
  else item

/-- Embedding of `cleanExtractedText(text)`. -/
def cleanExtractedText (text : Chars) : List Chars :=
  ((((splitOn (fun c => c == ',' || c == ';') text).map trimChars).filter
    (fun item => item.length > 1 && item.length < 50)).map
    dropLeadArticle).filter (fun item => item.length > 1)

/-- The `nonSkillWords` stop list of `isValidSkill`. -/
def nonSkillWords : List String :=
  ["experience", "knowledge", "skills", "ability", "years", "months",
   "project", "work", "team", "company", "role", "position", "job"]

def isAsciiLetter (c : Char) : Bool :=
  ('a' ≤ c && c ≤ 'z') || ('A' ≤ c && c ≤ 'Z')

/-- Embedding of `isValidSkill(skill)`. -/
def isValidSkill (skill : Chars) : Bool :=
  let skillLower := toLowerChars skill
  if allSkills.any (fun s => toLowerChars s.toList == skillLower) then true
  else if skill.length < 2 || skill.length > 50 then false
  else if skill.all Char.isDigit then false
  else if skill.all (fun c => !isAsciiLetter c) then false
  else !(nonSkillWords.any (fun w => w.toList == skillLower))

/-- Embedding of `calculateStringSimilarity(str1, str2)`: Jaccard similarity of the
character sets.  (In Lean `0 / 0 = 0`; the JavaScript `NaN` case needs two
empty strings, which no call site produces.) -/
def calculateStringSimilarity (str1 str2 : Chars) : ℚ :=
  let set1 := dedupFirst str1
  let set2 := dedupFirst str2
  let intersection := set1.filter (fun c => set2.contains c)
  let union := dedupFirst (set1 ++ set2)
  (intersection.length : ℚ) / (union.length : ℚ)

/-- Embedding of `findBestSkillMatch(term)`: best catalog entry by string similarity,
subject to `similarity > 0.7`. -/
def findBestSkillMatch (term : Chars) : Option (String × ℚ) :=
  (allSkills.foldl (fun (st : Option (String × ℚ) × ℚ) skill =>
    let similarity := calculateStringSimilarity term (toLowerChars skill.toList)
    if similarity > st.2 && similarity > 0.7 then (some (skill, similarity), similarity)
    else st) (none, 0)).1

/-- Embedding of `extractWithPatterns(text)`: the eleven `skillPatterns` regexes are run
by the external engine; `spans` is the list of captured group-1 texts they
deliver, in order.  Everything after the capture (trim, clean, validity
check, confidence 0.7) is from the source. -/
def extractWithPatterns (spans : List String) : List Candidate :=
  spans.foldl (fun acc span =>
    let extractedText := trimChars span.toList
    let potentialSkills := cleanExtractedText extractedText
    acc ++ (potentialSkills.filter isValidSkill).map (fun sk =>
      ⟨String.mk sk, 0.7, "pattern_match"⟩)) []

/-- Embedding of `extractWithNLP(text)`: `terms` is the noun/adjective/organization
term list delivered by the external `compromise` library; `none` models
the library call throwing, in which case the method's own catch returns
the empty accumulator. -/
def extractWithNLP (nlpTerms : Option (List String)) : List Candidate :=
  match nlpTerms with
  | none => []
  | some terms =>
    terms.foldl (fun acc term =>
      let cleanTerm := trimChars (toLowerChars term.toList)
      match findBestSkillMatch cleanTerm with
      | some (skill, similarity) =>
        acc ++ [⟨skill, similarity * 0.6, "nlp_match"⟩]
      | none => acc) []

/-- The source `identifySkillSections` assigns every section confidence 0.8. -/
def sectionConfidence : ℚ := 0.8

/-- Strip of a leading `[-•]\s*` bullet. -/
def dropBullet : Chars → Chars
  | [] => []
  | c :: cs =>
    if c == '-' || c == '•' then cs.dropWhile isSpaceChar else c :: cs

/-- Embedding of `extractFromSection(section)` for one section content span (the spans
are delivered by the external header-regex scan of
`identifySkillSections`/`findSectionEnd`). -/
def extractFromSection (content : String) : List Candidate :=
  let items := ((splitOn (fun c =>
    c == ',' || c == ';' || c == '•' || c == '\n') content.toList).map
      trimChars).filter (fun item => item.length > 1)
  items.foldl (fun acc item =>
    let cleanItem := trimChars (dropBullet item)
    if isValidSkill cleanItem then
      match findBestSkillMatch (toLowerChars cleanItem) with
      | some (skill, similarity) =>
        acc ++ [⟨skill, sectionConfidence * similarity, "section_extraction"⟩]
      | none => acc
    else acc) []

/-- Embedding of `extractWithContext(text)` over the delivered section spans. -/
def extractWithContext (sectionContents : List String) : List Candidate :=
  sectionContents.foldl (fun acc s => acc ++ extractFromSection s) []

/-- Embedding of `extractSkillContext(text, skillName)`: join the ±100-character
windows around every word-bounded (case-insensitive) occurrence of the
skill with " ... ".  `idx - 100` is truncated at 0 by natural subtraction,
matching `Math.max(0, ...)`; the `Math.min` bound is explicit. -/
def extractSkillContext (text skillName : Chars) : Chars :=
  let idxs := boundaryOccs (toLowerChars skillName) (toLowerChars text)
  let windows := idxs.map (fun idx =>
    (text.drop (idx - 100)).take
      (min text.length (idx + skillName.length + 100) - (idx - 100)))
  match windows with
  | [] => []
  | w :: ws => ws.foldl (fun acc x => acc ++ " ... ".toList ++ x) w

/-- Numeric value of a digit run (`parseInt`). -/
def digitsToNat (ds : Chars) : Nat :=
  ds.foldl (fun a c => 10 * a + (c.toNat - '0'.toNat)) 0

def startsYearWord (t : Chars) : Bool :=
  isPrefB ("year".toList) t || isPrefB ("yr".toList) t

/-- The numeric year matches of the regex
`(\d+)\s*(?:years?|yrs?)\s*(?:of|with|in|using)?\s*(?:experience\s*(?:with|in)?\s*)?`:
every maximal digit run that is followed (modulo whitespace) by
"year"/"yr" contributes its parsed value.  (The consumed optional tail
groups contain no digits, so the global-scan continuation finds exactly
these runs.) -/
def yearNums : Chars → List Nat
  | [] => []
  | c :: cs =>
    if c.isDigit then
      let run := c :: cs.takeWhile Char.isDigit
      let rest := cs.dropWhile Char.isDigit
      let afterSpaces := rest.dropWhile isSpaceChar
      (if startsYearWord afterSpaces then [digitsToNat run] else [])
        ++ yearNums rest
    else yearNums cs
termination_by l => l.length
decreasing_by
  · simp only [List.length_cons]
    exact Nat.lt_succ_of_le (length_dropWhile_le _ _)
  · simp only [List.length_cons]
    exact Nat.lt_succ_of_le (Nat.le_refl _)

structure LevelInd where
  keywords : List String
  years : List String
  weight : ℚ
deriving DecidableEq, Repr

/-- The table `this.levelIndicators`, in object-insertion order. -/
def levelIndicators : List (String × LevelInd) :=
  [("expert",
    ⟨["expert", "senior", "lead", "architect", "principal", "staff",
      "distinguished", "fellow"],
     ["8+", "9+", "10+", "5+ years", "6+ years", "7+ years", "8+ years",
      "9+ years", "10+ years"], 1.0⟩),
   ("advanced",
    ⟨["advanced", "proficient", "experienced", "skilled", "strong",
      "solid", "extensive"],
     ["4+", "5+", "3+ years", "4+ years", "5+ years"], 0.8⟩),
   ("intermediate",
    ⟨["intermediate", "familiar", "working knowledge", "competent",
      "moderate", "some experience"],
     ["2+", "3+", "1+ years", "2+ years", "3+ years"], 0.6⟩),
   ("beginner",
    ⟨["beginner", "basic", "learning", "novice", "entry", "junior",
      "trainee", "intern"],
     ["<1", "0-1", "6 months", "1 year"], 0.3⟩)]

/-- The `if/else-if` chain of the numeric-years bonus, specialized to one
level name. -/
def numericBucketScore (level : String) (years : Nat) : ℚ :=
  if years ≥ 5 && level == "expert" then 0.8
  else if years ≥ 3 && level == "advanced" then 0.8
  else if years ≥ 1 && level == "intermediate" then 0.8
  else if years < 1 && level == "beginner" then 0.8
  else 0

/-- Score of one level over the lower-cased context: keyword hits ×
weight, year-phrase hits × weight × 0.8, numeric-years bonuses. -/
def levelScoreFor (contextLower : Chars) (level : String)
    (ind : LevelInd) : ℚ :=
  ((ind.keywords.filter (fun kw =>
      includesSub kw.toList contextLower)).length : ℚ) * ind.weight
    + ((ind.years.filter (fun yp =>
      includesSub yp.toList contextLower)).length : ℚ) * (ind.weight * 0.8)
    + ((yearNums contextLower).map (numericBucketScore level)).sum

/-- First maximum of the score table (a stable descending sort followed
by taking the head); all-zero or negative-capped tables default to
"intermediate". -/
def bestLevel (scores : List (String × ℚ)) : String :=
  match scores with
  | [] => "intermediate"
  | s :: rest =>
    let best := rest.foldl (fun b x => if x.2 > b.2 then x else b) s
    if best.2 > 0 then best.1 else "intermediate"

/-- Embedding of `analyzeSkillLevel(text, skillName)`. -/
def analyzeSkillLevel (text skillName : Chars) : String :=
  let context := extractSkillContext text skillName
  let contextLower := toLowerChars context
  bestLevel (levelIndicators.map (fun p =>
    (p.1, levelScoreFor contextLower p.1 p.2)))

/-- A deduplicated skill record (the object spread keeps the first
candidate's `method` field next to the accumulated `methods` list). -/
structure DedupSkill where
  name : String
  confidence : ℚ
  method : String
  methods : List String
deriving DecidableEq, Repr

/-- The canonical (lower-cased) dedup key of a skill name. -/
def skillKey (s : String) : String := String.mk (toLowerChars s.toList)

/-- One `Map` step of `combineAndDeduplicateSkills`: merge a candidate
into the insertion-ordered map, taking the maximal confidence and
appending the contributing method. -/
def dedupStep (acc : List DedupSkill) (c : Candidate) : List DedupSkill :=
  if acc.any (fun e => skillKey e.name = skillKey c.name) then
    acc.map (fun e =>
      if skillKey e.name = skillKey c.name then
        { e with
          confidence := max e.confidence c.confidence
          methods := e.methods ++ [c.method] }
      else e)
  else acc ++ [⟨c.name, c.confidence, c.method, [c.method]⟩]

/-- Embedding of `combineAndDeduplicateSkills(skillArrays)` as written: it iterates its
argument as an array of candidate arrays. -/
def combineAndDeduplicateSkills (skillArrays : List (List Candidate)) :
    List DedupSkill :=
  skillArrays.foldl (fun acc skills => skills.foldl dedupStep acc) []

/-- The call `this.combineAndDeduplicateSkills(extractedSkills)` inside
`extractSkills` passes the FLAT candidate array, while the callee iterates
its argument as an array of arrays (`skillArrays.forEach(skills =>
skills.forEach(...))`).  On the first candidate object `skills.forEach` is
not a function, so a TypeError is thrown; only an empty argument avoids
the inner call and yields the empty map. -/
def combineAndDeduplicateSkillsCall (cands : List Candidate) :
    Except String (List DedupSkill) :=
  match cands with
  | [] => .ok []
  | _ => .error ("TypeError: skills.forEach is not a function")

/-- Options of `extractSkills` (source defaults). -/
structure ExtractOptions where
  includeConfidence : Bool := true
  includeContext : Bool := false
  minConfidence : ℚ := 0.3
  maxSkills : Nat := 50
deriving DecidableEq, Repr

/-- One element of the `extractSkills` result. -/
structure FinalSkill where
  name : String
  confidence : ℚ
  method : String
  methods : List String
  level : Option String
  context : Option String
deriving DecidableEq, Repr

/-- Embedding of `extractSkills(text, options)`.  `text = none` models a non-string
argument (its `.replace` in `preprocessText` throws and the outer catch
returns `[]`).  `nlpTerms`, `patternSpans` and `sectionContents` are the
spans delivered by the external NLP library, regex engine and section
scanner (see `extractWithNLP`, `extractWithPatterns`,
`extractWithContext`); every theorem quantifies over them.  The outer
try/catch turns the `TypeError` of the deduplication call into `[]`. -/
def extractSkills (text : Option String) (nlpTerms : Option (List String))
    (patternSpans : List String) (sectionContents : List String)
    (opts : ExtractOptions) : List FinalSkill :=
  match text with
  | none => []
  | some t =>
    let cleanedText := preprocessChars t.toList
    let extractedSkills :=
      extractDirectMatches cleanedText
        ++ extractWithPatterns patternSpans
        ++ extractWithNLP nlpTerms
        ++ extractWithContext sectionContents
    match combineAndDeduplicateSkillsCall extractedSkills with
    | .error _ => []
    | .ok combinedSkills =>
      let finalSkills :=
        if opts.includeConfidence then
          combinedSkills.map (fun sk =>
            FinalSkill.mk sk.name sk.confidence sk.method sk.methods
              (some (analyzeSkillLevel cleanedText sk.name.toList))
              (if opts.includeContext then
                some (String.mk (extractSkillContext cleanedText sk.name.toList))
              else none))
        else
          combinedSkills.map (fun sk =>
            FinalSkill.mk sk.name sk.confidence sk.method sk.methods none none)
      ((sortDesc (fun s => s.confidence)
          (finalSkills.filter (fun s => s.confidence ≥ opts.minConfidence))).take
        opts.maxSkills)

end SkillX

namespace REng

/-- The diversity acceptance rule exactly as the specification phrases it:
the top-scored candidate is always kept, and a later candidate is accepted
if and only if its course similarity to every already-accepted candidate
is at most `1 - diversityFactor`. -/
def diversitySpecStep (env : Env) (diversityFactor : ℚ)
    (acc : List Combined) (cand : Combined) : List Combined :=
  if acc.all (fun sel =>
      calculateCourseSimilarity ((findCourse env cand.courseId).getD default)
        ((findCourse env sel.courseId).getD default) ≤ 1 - diversityFactor)
  then acc ++ [cand] else acc

/-- The specification-side diversity filter built from `diversitySpecStep`. -/
def diversityFilterSpecRule (env : Env) (recs : List Combined)
    (diversityFactor : ℚ) : List Combined :=
  match recs with
  | [] => []
  | top :: rest => rest.foldl (diversitySpecStep env diversityFactor) [top]

/-- Snapshot for the enrichment scenario: courses `c2`, `c3` exist, course
`c1` is absent from the store. -/
def missingCourseEnv : Env :=
  ⟨[], [⟨"c2", "Title 2", "desc", ["s2"], "catB", "prov", "beginner"⟩,
        ⟨"c3", "Title 3", "desc", ["s3"], "catC", "prov", "advanced"⟩]⟩

/-- Three combined candidates in descending score order; the top one
references the course that is missing from the store. -/
def missingCourseRecs : List Combined :=
  [⟨"c1", 0.9, []⟩, ⟨"c2", 0.8, []⟩, ⟨"c3", 0.7, []⟩]

/-- A market-driven candidate list in which one course was emitted once
per matching trend: six candidates for the same courseId, each with a
score inside `[0,1]`. -/
def dupMarketCands : List Candidate :=
  List.replicate 6 ⟨"c1", 1, "matches a trending skill"⟩

/-- A one-user, zero-course snapshot. -/
def tinyEnv : Env := ⟨[⟨"u1", ⟨[], [], [], ⟨none⟩⟩, []⟩], []⟩

/-- The weighted score mass one source assigns to one courseId (the sum
of the scores of that source's candidates for the course). -/
def candScoreSum (cid : String) (recs : List Candidate) : ℚ :=
  ((recs.filter (fun r => r.courseId = cid)).map (fun r => r.score)).sum

/-- Total combined score carried by a courseId in a merged list. -/
def combinedScoreSum (cid : String) (l : List Combined) : ℚ :=
  ((l.filter (fun c => c.courseId = cid)).map (fun c => c.score)).sum

/-- The merged list groups by courseId: no courseId appears twice. -/
def UniqIds (l : List Combined) : Prop :=
  (l.map (fun c => c.courseId)).Nodup

end REng

namespace SkillX

open JsStr

/-- Rank of a proficiency level in the order
beginner < intermediate < advanced < expert. -/
def levelRank : String → Nat
  | "intermediate" => 1
  | "advanced" => 2
  | "expert" => 3
  | _ => 0

/-- Text stating 9 years of python experience; an "expert" keyword sits
100 characters before the skill mention, exactly at the context-window
boundary. -/
def slideText9 : String :=
  "expert advanced " ++ String.mk (List.replicate 72 'z') ++ " 9 years of python"

/-- The same text with the years number raised from 9 to 10; the extra
digit shifts the skill mention one character right, pushing the "expert"
keyword out of the ±100-character context window. -/
def slideText10 : String :=
  "expert advanced " ++ String.mk (List.replicate 72 'z') ++ " 10 years of python"

/-- The years-of-experience template of the specification example:
a digit string followed by " years of python". -/
def yearsTemplate (d : Chars) : Chars := d ++ " years of python".toList

/-- The level bucket the numeric-years regex imposes on the template. -/
def yearBucket (n : Nat) : String :=
  if n ≥ 5 then "expert"
  else if n ≥ 3 then "advanced"
  else if n ≥ 1 then "intermediate"
  else "beginner"

/-- The fixed tail of the years template. -/
def tmplChars : Chars := " years of python".toList

/-- The skill name of the template, as a character list. -/
def pyChars : Chars := "python".toList

/-- Carry the previous-character state of the occurrence scan across a
skipped block. -/
def lastOption : Chars → Option Char → Option Char
  | [], prev => prev
  | c :: cs, _ => lastOption cs (some c)

end SkillX

set_option maxRecDepth 100000

unseal Rat.add Rat.mul Rat.sub Rat.inv Rat.ofScientific Nat.gcd
unseal JsStr.dedupFirst JsStr.tokenize SkillX.collapseSpaces SkillX.yearNums

namespace REng

/-- C5: the completed-course filter removes a candidate exactly when its
courseId appears in a learning-history entry with status "completed":
every such candidate is removed, and no candidate without a completed
entry is removed. -/
theorem filterCompletedCourses_removes_exactly_completed
    (recs : List Combined) (history : List HistoryEntry) (r : Combined) :
    r ∈ filterCompletedCourses recs history ↔
      r ∈ recs ∧
        ¬ ∃ h ∈ history, h.status = "completed" ∧ h.courseId = r.courseId := by
  unfold filterCompletedCourses
  simp [List.mem_filter, List.contains_iff_exists_mem_beq, List.mem_map,
    List.mem_filter]

/-- C7: `cosineSimilarity` returns 0 whenever either vector has zero norm
(all entries zero); the zero-norm guard fires before any division or
square root, so no division by zero can occur, for every square-root
function. -/
theorem cosineSimilarity_zero_norm_eq_zero (sqrt : ℚ → ℚ)
    (vecA vecB : List ℚ)
    (h : (∀ a ∈ vecA, a = 0) ∨ (∀ b ∈ vecB, b = 0)) :
    cosineSimilarity sqrt vecA vecB = 0 := by
  unfold cosineSimilarity
  split
  · rfl
  · rw [if_pos]
    rcases h with h | h
    · left
      apply List.sum_eq_zero
      intro x hx
      simp only [List.mem_map] at hx
      obtain ⟨a, ha, rfl⟩ := hx
      rw [h a ha]; ring
    · right
      apply List.sum_eq_zero
      intro x hx
      simp only [List.mem_map] at hx
      obtain ⟨b, hb, rfl⟩ := hx
      rw [h b hb]; ring

/-- Witness for C7 at a concrete input: the first vector is zero, the
similarity is 0 (with the identity as the square-root oracle). -/
theorem cosineSimilarity_zero_norm_eq_zero_witness :
    ((∀ a ∈ ([0, 0] : List ℚ), a = 0) ∨ (∀ b ∈ ([1, 2] : List ℚ), b = 0))
      ∧ cosineSimilarity id [0, 0] [1, 2] = 0 :=
  ⟨Or.inl (by decide),
   cosineSimilarity_zero_norm_eq_zero id [0, 0] [1, 2] (Or.inl (by decide))⟩

/-- C6: collaborative filtering returns the empty list whenever the
snapshot has fewer than 2 users or fewer than 2 courses, or the
requesting user is absent from the users snapshot. -/
theorem collaborativeFiltering_empty_on_insufficient_data (sqrt : ℚ → ℚ)
    (env : Env) (userId : String)
    (h : env.users.length < 2 ∨ env.courses.length < 2
      ∨ ∀ u ∈ env.users, u.id ≠ userId) :
    collaborativeFiltering sqrt env userId = [] := by
  unfold collaborativeFiltering
  rcases h with h | h | h
  · rw [if_pos]
    simp [h]
  · rw [if_pos]
    simp [h]
  · have hnone : env.users.findIdx? (fun u => decide (u.id = userId)) = none := by
      rw [List.findIdx?_eq_none_iff]
      intro u hu
      simp [h u hu]
    dsimp only
    split
    · rfl
    · rw [hnone]

/-- Witness for C6: a snapshot with one user and no courses yields `[]`. -/
theorem collaborativeFiltering_empty_on_insufficient_data_witness :
    tinyEnv.courses.length < 2 ∧ collaborativeFiltering id tinyEnv ("u1") = [] :=
  ⟨by decide,
   collaborativeFiltering_empty_on_insufficient_data id tinyEnv ("u1")
     (Or.inr (Or.inl (by decide)))⟩

theorem cacheGet_cacheSet (cache : Cache) (k : String × RecOptions)
    (v : List Enriched) : cacheGet (cacheSet cache k v) k = some v := by
  unfold cacheGet cacheSet
  simp

/-- C9: over an unchanged snapshot, `generateRecommendations` is a pure
function of its inputs, so two calls on the same cache state return
identical output; moreover a second call made on the cache state the
first call left behind (the caller changing nothing in between) also
returns exactly the first call's output. -/
theorem generateRecommendations_deterministic (sqrt : ℚ → ℚ) (env : Env)
    (cache : Cache) (userId : String) (opts : RecOptions) :
    (generateRecommendations sqrt env cache userId opts).1
      = (generateRecommendations sqrt env cache userId opts).1
    ∧ (generateRecommendations sqrt env
        (generateRecommendations sqrt env cache userId opts).2 userId opts).1
      = (generateRecommendations sqrt env cache userId opts).1 := by
  refine ⟨rfl, ?_⟩
  unfold generateRecommendations
  cases hget : cacheGet cache (userId, opts) with
  | some v => simp [hget]
  | none =>
    cases hfind : env.users.find? (fun u => decide (u.id = userId)) with
    | none => simp [hget, hfind]
    | some user => simp [hget, hfind, cacheGet_cacheSet]

/-- C10: every recommendation surviving enrichment carries a non-null
course record, and because enrichment drops store-missing courses only
after the list was truncated to `limit`, the returned list can be shorter
than `limit` even though at least `limit` candidates survived the
diversity and completed filters (here: 3 survivors, limit 2, output 1). -/
theorem enrichRecommendations_nonnull_and_undershoots_limit :
    (∀ (env : Env) (flag : Bool) (recs : List Combined) (r : Enriched),
        r ∈ enrichRecommendations env flag recs → r.course ≠ none)
    ∧ ((filterCompletedCourses
          (applyDiversityFilter missingCourseEnv missingCourseRecs 0.3)
          []).length = 3
        ∧ (enrichRecommendations missingCourseEnv true
            ((filterCompletedCourses
              (applyDiversityFilter missingCourseEnv missingCourseRecs 0.3)
              []).take 2)).length < 2) := by
  refine ⟨?_, by decide, by decide⟩
  intro env flag recs r h
  unfold enrichRecommendations at h
  simp only [List.mem_filter] at h
  simpa using h.2

/-- Witness for C10 at a concrete input: the single enriched entry of a
resolving candidate carries its course record. -/
theorem enrichRecommendations_nonnull_witness :
    ((⟨"c2", 0.8, some ⟨"c2", "Title 2", "desc", ["s2"], "catB", "prov",
        "beginner"⟩,
      some ⟨"Recommended based on your profile", [], 0.8⟩⟩ : Enriched)
        ∈ enrichRecommendations missingCourseEnv true [⟨"c2", 0.8, []⟩])
    ∧ (⟨"c2", 0.8, some ⟨"c2", "Title 2", "desc", ["s2"], "catB", "prov",
        "beginner"⟩,
      some ⟨"Recommended based on your profile", [], 0.8⟩⟩ : Enriched).course
        ≠ none :=
  ⟨by decide,
   enrichRecommendations_nonnull_and_undershoots_limit.1 missingCourseEnv
     true [⟨"c2", 0.8, []⟩] _ (by decide)⟩

/-- Counterexample for C3: all candidate scores of all sources lie in
`[0,1]` and the fixed weights are used, yet because one source lists the
same courseId six times, the combined score is 6/5 > 1 (the merge adds
every candidate, not one summand per source). -/
theorem combineRecommendations_dup_source_exceeds_one :
    (∀ c ∈ dupMarketCands, 0 ≤ c.score ∧ c.score ≤ 1)
    ∧ ((combineRecommendations
        [⟨[], weightCollaborative, "collaborative"⟩,
         ⟨[], weightContentBased, "content-based"⟩,
         ⟨dupMarketCands, weightMarketDriven, "market-driven"⟩,
         ⟨[], weightBehavioral, "behavioral"⟩]).map
          (fun c => (c.courseId, c.score)) = [("c1", 6/5)])
    ∧ ¬ ((6 : ℚ)/5 ≤ 1) :=
  ⟨by decide, by decide, by norm_num⟩

end REng

namespace REng

open JsStr

theorem insertDesc_perm (f : α → ℚ) (x : α) (l : List α) :
    List.Perm (insertDesc f x l) (x :: l) := by
  induction l with
  | nil => exact List.Perm.refl _
  | cons y ys ih =>
    rw [insertDesc]
    split
    · exact List.Perm.refl _
    · exact ((ih.cons y).trans (List.Perm.swap x y ys))

theorem sortDesc_perm (f : α → ℚ) (l : List α) :
    List.Perm (sortDesc f l) l := by
  induction l with
  | nil => exact List.Perm.refl _
  | cons x xs ih =>
    rw [sortDesc]
    exact (insertDesc_perm f x (sortDesc f xs)).trans (ih.cons x)

theorem combineStep_uniq {acc : List Combined} (h : UniqIds acc)
    (w : ℚ) (t : String) (r : Candidate) :
    UniqIds (combineStep w t acc r) := by
  unfold combineStep UniqIds
  split
  · have heq : (acc.map (fun c =>
        if c.courseId = r.courseId then
          { c with score := c.score + r.score * w,
                   sources := c.sources ++ [⟨t, r.score, r.reason⟩] }
        else c)).map (fun c => c.courseId) = acc.map (fun c => c.courseId) := by
      rw [List.map_map]
      apply List.map_congr_left
      intro c _
      by_cases hc : c.courseId = r.courseId <;> simp [hc]
    rw [heq]
    exact h
  · rename_i hany
    rw [List.map_append]
    simp only [List.map_cons, List.map_nil]
    rw [List.nodup_append]
    refine ⟨h, List.nodup_singleton _, ?_⟩
    intro a ha hb
    simp only [List.mem_singleton] at hb
    subst hb
    simp only [List.mem_map] at ha
    obtain ⟨c, hc, hEq⟩ := ha
    exact hany (by simp; exact ⟨c, hc, hEq⟩)

theorem combinedScoreSum_cons (cid : String) (c : Combined) (l : List Combined) :
    combinedScoreSum cid (c :: l)
      = (if c.courseId = cid then c.score else 0) + combinedScoreSum cid l := by
  unfold combinedScoreSum
  rw [List.filter_cons]
  split
  · rename_i hc
    simp only [decide_eq_true_eq] at hc
    simp [hc]
  · rename_i hc
    simp only [decide_eq_true_eq] at hc
    simp [hc]

theorem candScoreSum_cons (cid : String) (r : Candidate) (l : List Candidate) :
    candScoreSum cid (r :: l)
      = (if r.courseId = cid then r.score else 0) + candScoreSum cid l := by
  unfold candScoreSum
  rw [List.filter_cons]
  split
  · rename_i hc
    simp only [decide_eq_true_eq] at hc
    simp [hc]
  · rename_i hc
    simp only [decide_eq_true_eq] at hc
    simp [hc]

theorem scoreSum_map_update (cid : String) (w : ℚ) (t : String) (r : Candidate) :
    ∀ acc : List Combined, UniqIds acc →
      combinedScoreSum cid (acc.map (fun c =>
        if c.courseId = r.courseId then
          { c with score := c.score + r.score * w,
                   sources := c.sources ++ [⟨t, r.score, r.reason⟩] }
        else c))
      = combinedScoreSum cid acc
        + (if r.courseId = cid ∧ (acc.any (fun c => c.courseId = r.courseId)) = true
            then r.score * w else 0) := by
  intro acc
  induction acc with
  | nil => simp [combinedScoreSum]
  | cons a acc ih =>
    intro h
    have h' : UniqIds acc := (List.nodup_cons.mp h).2
    have hhead : a.courseId ∉ acc.map (fun c => c.courseId) := (List.nodup_cons.mp h).1
    rw [List.map_cons, combinedScoreSum_cons, combinedScoreSum_cons, ih h']
    by_cases har : a.courseId = r.courseId
    · have hnot : (acc.any (fun c => c.courseId = r.courseId)) = false := by
        rw [List.any_eq_false]
        intro c hc
        simp only [decide_eq_true_eq]
        intro hcr
        exact hhead (by rw [har]; exact List.mem_map.mpr ⟨c, hc, hcr⟩)
      simp only [har, if_pos rfl, hnot, Bool.false_eq_true, and_false, if_false, add_zero]
      by_cases hac : r.courseId = cid
      · simp only [hac, if_pos rfl, List.any_cons]
        simp only [har, hac, decide_eq_true_eq, if_pos rfl]
        simp [hac, true_or]
        ring
      · simp only [hac, if_neg hac]
        simp [har, hac]
    · rw [if_neg har]
      by_cases hac : a.courseId = cid
      · simp only [hac, if_pos rfl, List.any_cons]
        have : ¬ (r.courseId = cid ∧ (decide (a.courseId = r.courseId) || acc.any fun c => decide (c.courseId = r.courseId)) = true) ∨ True := Or.inr trivial
        by_cases hrc : r.courseId = cid
        · exfalso
          exact har (by rw [hac, hrc])
        · simp [hrc]
      · have hdec : (decide (a.courseId = r.courseId)) = false := by
          simp [har]
        simp only [if_neg hac, List.any_cons, hdec, Bool.false_or]
        ring

theorem combineStep_scoreSum {acc : List Combined} (h : UniqIds acc)
    (w : ℚ) (t : String) (r : Candidate) (cid : String) :
    combinedScoreSum cid (combineStep w t acc r)
      = combinedScoreSum cid acc
        + w * (if r.courseId = cid then r.score else 0) := by
  unfold combineStep
  split
  · rename_i hany
    rw [scoreSum_map_update cid w t r acc h]
    by_cases hrc : r.courseId = cid
    · have hex : ∃ x ∈ acc, x.courseId = r.courseId := by simpa using hany
      simp only [hrc] at hex
      simp [hrc, hany, hex]
      ring
    · simp [hrc]
  · unfold combinedScoreSum
    rw [List.filter_append, List.map_append, List.sum_append]
    by_cases hrc : r.courseId = cid
    · simp [hrc]; ring
    · simp [hrc]

theorem foldl_combineStep_uniq (w : ℚ) (t : String) :
    ∀ (recs : List Candidate) (acc : List Combined), UniqIds acc →
      UniqIds (recs.foldl (combineStep w t) acc) := by
  intro recs
  induction recs with
  | nil => intro acc h; exact h
  | cons r recs ih =>
    intro acc h
    rw [List.foldl_cons]
    exact ih _ (combineStep_uniq h w t r)

theorem foldl_combineStep_scoreSum (w : ℚ) (t : String) (cid : String) :
    ∀ (recs : List Candidate) (acc : List Combined), UniqIds acc →
      combinedScoreSum cid (recs.foldl (combineStep w t) acc)
        = combinedScoreSum cid acc + w * candScoreSum cid recs := by
  intro recs
  induction recs with
  | nil => intro acc h; simp [candScoreSum]
  | cons r recs ih =>
    intro acc h
    rw [List.foldl_cons, ih _ (combineStep_uniq h w t r),
      combineStep_scoreSum h w t r cid, candScoreSum_cons]
    ring

theorem combinedScoreSum_perm (cid : String) {l l' : List Combined}
    (h : List.Perm l l') : combinedScoreSum cid l = combinedScoreSum cid l' := by
  unfold combinedScoreSum
  exact List.Perm.sum_eq ((h.filter _).map _)

theorem combinedScoreSum_of_mem {l : List Combined} (h : UniqIds l)
    {c : Combined} (hc : c ∈ l) :
    combinedScoreSum c.courseId l = c.score := by
  induction l with
  | nil => cases hc
  | cons a l ih =>
    rw [combinedScoreSum_cons]
    rcases List.mem_cons.mp hc with rfl | hmem
    · rw [if_pos rfl]
      have hzero : combinedScoreSum c.courseId l = 0 := by
        unfold combinedScoreSum
        have hfil : l.filter (fun x => x.courseId = c.courseId) = [] := by
          rw [List.filter_eq_nil_iff]
          intro x hx
          simp only [decide_eq_true_eq]
          intro hEq
          exact (List.nodup_cons.mp h).1 (List.mem_map.mpr ⟨x, hx, hEq⟩)
        rw [hfil]; rfl
      rw [hzero, add_zero]
    · have h' : UniqIds l := (List.nodup_cons.mp h).2
      rw [ih h' hmem]
      have hne : ¬ a.courseId = c.courseId := by
        intro hEq
        apply (List.nodup_cons.mp h).1
        show a.courseId ∈ _
        rw [hEq]
        exact List.mem_map.mpr ⟨c, hmem, rfl⟩
      rw [if_neg hne, zero_add]

theorem candScoreSum_bounds {recs : List Candidate}
    (hd : (recs.map (fun r => r.courseId)).Nodup)
    (hs : ∀ r ∈ recs, 0 ≤ r.score ∧ r.score ≤ 1) (cid : String) :
    0 ≤ candScoreSum cid recs ∧ candScoreSum cid recs ≤ 1 := by
  induction recs with
  | nil => simp [candScoreSum]
  | cons r recs ih =>
    rw [candScoreSum_cons]
    by_cases hrc : r.courseId = cid
    · rw [if_pos hrc]
      have hzero : candScoreSum cid recs = 0 := by
        unfold candScoreSum
        have hfil : recs.filter (fun x => x.courseId = cid) = [] := by
          rw [List.filter_eq_nil_iff]
          intro x hx
          simp only [decide_eq_true_eq]
          intro hEq
          apply (List.nodup_cons.mp hd).1
          show r.courseId ∈ _
          rw [hrc]
          exact List.mem_map.mpr ⟨x, hx, hEq⟩
        rw [hfil]; rfl
      rw [hzero, add_zero]
      exact hs r (List.mem_cons_self ..)
    · rw [if_neg hrc, zero_add]
      exact ih (List.nodup_cons.mp hd).2
        (fun x hx => hs x (List.mem_cons_of_mem _ hx))

/-- C3 (amended): for scorer sources carrying the fixed weights
(collaborative 0.35, content 0.35, market 0.20, behavioral 0.10) whose
candidate scores lie in [0,1] and in which no source lists the same
courseId twice, `combineRecommendations` groups candidates by courseId,
assigns each the sum over sources of candidateScore times that source's
weight, and every combined score lies in [0,1].  (Without the
no-duplicate condition the bound fails, see the counterexample.) -/
theorem combineRecommendations_fixed_weights_unit_interval
    (collab content market behav : List Candidate)
    (hdC : (collab.map (fun r => r.courseId)).Nodup)
    (hdT : (content.map (fun r => r.courseId)).Nodup)
    (hdM : (market.map (fun r => r.courseId)).Nodup)
    (hdB : (behav.map (fun r => r.courseId)).Nodup)
    (hsC : ∀ r ∈ collab, 0 ≤ r.score ∧ r.score ≤ 1)
    (hsT : ∀ r ∈ content, 0 ≤ r.score ∧ r.score ≤ 1)
    (hsM : ∀ r ∈ market, 0 ≤ r.score ∧ r.score ≤ 1)
    (hsB : ∀ r ∈ behav, 0 ≤ r.score ∧ r.score ≤ 1) :
    UniqIds (combineRecommendations
      [⟨collab, weightCollaborative, "collaborative"⟩,
       ⟨content, weightContentBased, "content-based"⟩,
       ⟨market, weightMarketDriven, "market-driven"⟩,
       ⟨behav, weightBehavioral, "behavioral"⟩])
    ∧ ∀ c ∈ combineRecommendations
      [⟨collab, weightCollaborative, "collaborative"⟩,
       ⟨content, weightContentBased, "content-based"⟩,
       ⟨market, weightMarketDriven, "market-driven"⟩,
       ⟨behav, weightBehavioral, "behavioral"⟩],
        c.score = weightCollaborative * candScoreSum c.courseId collab
            + weightContentBased * candScoreSum c.courseId content
            + weightMarketDriven * candScoreSum c.courseId market
            + weightBehavioral * candScoreSum c.courseId behav
          ∧ 0 ≤ c.score ∧ c.score ≤ 1 := by
  have hnil : UniqIds ([] : List Combined) := by simp [UniqIds]
  have hu1 := foldl_combineStep_uniq weightCollaborative ("collaborative") collab [] hnil
  have hu2 := foldl_combineStep_uniq weightContentBased ("content-based") content _ hu1
  have hu3 := foldl_combineStep_uniq weightMarketDriven ("market-driven") market _ hu2
  have hu4 := foldl_combineStep_uniq weightBehavioral ("behavioral") behav _ hu3
  have hfold : combineRecommendations
      [⟨collab, weightCollaborative, "collaborative"⟩,
       ⟨content, weightContentBased, "content-based"⟩,
       ⟨market, weightMarketDriven, "market-driven"⟩,
       ⟨behav, weightBehavioral, "behavioral"⟩]
      = sortDesc (fun c => c.score)
          (behav.foldl (combineStep weightBehavioral ("behavioral"))
            (market.foldl (combineStep weightMarketDriven ("market-driven"))
              (content.foldl (combineStep weightContentBased ("content-based"))
                (collab.foldl (combineStep weightCollaborative ("collaborative"))
                  [])))) := by
    unfold combineRecommendations
    simp only [List.foldl_cons, List.foldl_nil]
  have hscore : ∀ cid,
      combinedScoreSum cid
        (behav.foldl (combineStep weightBehavioral ("behavioral"))
          (market.foldl (combineStep weightMarketDriven ("market-driven"))
            (content.foldl (combineStep weightContentBased ("content-based"))
              (collab.foldl (combineStep weightCollaborative ("collaborative"))
                []))))
      = weightCollaborative * candScoreSum cid collab
        + weightContentBased * candScoreSum cid content
        + weightMarketDriven * candScoreSum cid market
        + weightBehavioral * candScoreSum cid behav := by
    intro cid
    rw [foldl_combineStep_scoreSum _ _ _ behav _ hu3,
      foldl_combineStep_scoreSum _ _ _ market _ hu2,
      foldl_combineStep_scoreSum _ _ _ content _ hu1,
      foldl_combineStep_scoreSum _ _ _ collab _ hnil]
    have hbase : combinedScoreSum cid ([] : List Combined) = 0 := rfl
    rw [hbase]
    ring
  rw [hfold]
  have hperm := sortDesc_perm (fun c : Combined => c.score)
    (behav.foldl (combineStep weightBehavioral ("behavioral"))
      (market.foldl (combineStep weightMarketDriven ("market-driven"))
        (content.foldl (combineStep weightContentBased ("content-based"))
          (collab.foldl (combineStep weightCollaborative ("collaborative")) []))))
  constructor
  · unfold UniqIds
    unfold UniqIds at hu4
    exact ((hperm.map (fun c => c.courseId)).nodup_iff).mpr hu4
  · intro c hc
    have hcL := hperm.mem_iff.mp hc
    have hchar := combinedScoreSum_of_mem hu4 hcL
    have hval : c.score
        = weightCollaborative * candScoreSum c.courseId collab
          + weightContentBased * candScoreSum c.courseId content
          + weightMarketDriven * candScoreSum c.courseId market
          + weightBehavioral * candScoreSum c.courseId behav := by
      rw [← hscore c.courseId, hchar]
    have b1 := candScoreSum_bounds hdC hsC c.courseId
    have b2 := candScoreSum_bounds hdT hsT c.courseId
    have b3 := candScoreSum_bounds hdM hsM c.courseId
    have b4 := candScoreSum_bounds hdB hsB c.courseId
    have wC : (0:ℚ) ≤ weightCollaborative := by norm_num [weightCollaborative]
    have wT : (0:ℚ) ≤ weightContentBased := by norm_num [weightContentBased]
    have wM : (0:ℚ) ≤ weightMarketDriven := by norm_num [weightMarketDriven]
    have wB : (0:ℚ) ≤ weightBehavioral := by norm_num [weightBehavioral]
    refine ⟨hval, ?_, ?_⟩
    · rw [hval]
      have n1 := mul_nonneg wC b1.1
      have n2 := mul_nonneg wT b2.1
      have n3 := mul_nonneg wM b3.1
      have n4 := mul_nonneg wB b4.1
      linarith
    · rw [hval]
      have u1 : weightCollaborative * candScoreSum c.courseId collab
          ≤ weightCollaborative := mul_le_of_le_one_right wC b1.2
      have u2 : weightContentBased * candScoreSum c.courseId content
          ≤ weightContentBased := mul_le_of_le_one_right wT b2.2
      have u3 : weightMarketDriven * candScoreSum c.courseId market
          ≤ weightMarketDriven := mul_le_of_le_one_right wM b3.2
      have u4 : weightBehavioral * candScoreSum c.courseId behav
          ≤ weightBehavioral := mul_le_of_le_one_right wB b4.2
      have wsum : weightCollaborative + weightContentBased + weightMarketDriven
          + weightBehavioral = 1 := by
        norm_num [weightCollaborative, weightContentBased, weightMarketDriven,
          weightBehavioral]
      linarith

/-- Witness for the amended C3 at concrete inputs: two sources list the
same course once each with score 1; the combined score is
0.35·1 + 0.35·1 = 0.7 ∈ [0,1]. -/
theorem combineRecommendations_fixed_weights_unit_interval_witness :
    UniqIds (combineRecommendations
      [⟨[⟨"a", 1, "r"⟩], weightCollaborative, "collaborative"⟩,
       ⟨[⟨"a", 1, "r"⟩], weightContentBased, "content-based"⟩,
       ⟨[], weightMarketDriven, "market-driven"⟩,
       ⟨[], weightBehavioral, "behavioral"⟩])
    ∧ ∀ c ∈ combineRecommendations
      [⟨[⟨"a", 1, "r"⟩], weightCollaborative, "collaborative"⟩,
       ⟨[⟨"a", 1, "r"⟩], weightContentBased, "content-based"⟩,
       ⟨[], weightMarketDriven, "market-driven"⟩,
       ⟨[], weightBehavioral, "behavioral"⟩],
        c.score = weightCollaborative * candScoreSum c.courseId [⟨"a", 1, "r"⟩]
            + weightContentBased * candScoreSum c.courseId [⟨"a", 1, "r"⟩]
            + weightMarketDriven * candScoreSum c.courseId []
            + weightBehavioral * candScoreSum c.courseId []
          ∧ 0 ≤ c.score ∧ c.score ≤ 1 :=
  combineRecommendations_fixed_weights_unit_interval
    [⟨"a", 1, "r"⟩] [⟨"a", 1, "r"⟩] [] []
    (by decide) (by decide) (by decide) (by decide)
    (by decide) (by decide) (by decide) (by decide)

end REng

namespace REng

open JsStr

theorem all_congr_mem {l : List α} {f g : α → Bool}
    (h : ∀ x ∈ l, f x = g x) : l.all f = l.all g := by
  induction l with
  | nil => rfl
  | cons a l ih =>
    simp only [List.all_cons]
    rw [h a (List.mem_cons_self ..), ih (fun x hx => h x (List.mem_cons_of_mem _ hx))]

theorem diversityStep_eq_spec (env : Env) (dF : ℚ) (acc : List Combined)
    (cand : Combined) (hc : (findCourse env cand.courseId).isSome)
    (hacc : ∀ r ∈ acc, (findCourse env r.courseId).isSome) :
    diversityStep env dF acc cand = diversitySpecStep env dF acc cand := by
  obtain ⟨cc, hcc⟩ := Option.isSome_iff_exists.mp hc
  unfold diversityStep diversitySpecStep
  rw [hcc]
  dsimp only
  congr 1
  rw [eq_iff_iff]
  constructor
  all_goals
    intro hside
    rw [List.all_eq_true] at hside ⊢
    intro sel hsel
    have hstep := hside sel hsel
    obtain ⟨sc, hsc⟩ := Option.isSome_iff_exists.mp (hacc sel hsel)
    rw [hsc] at hstep ⊢
    simp only [Option.getD_some] at hstep ⊢
    simp only [decide_eq_true_eq] at hstep ⊢
  · exact not_lt.mp (by simpa using hstep)
  · simp only [Bool.not_eq_true', decide_eq_false_iff_not]
    exact not_lt.mpr hstep

theorem diversity_foldl_eq (env : Env) (dF : ℚ) :
    ∀ (rest acc : List Combined),
      (∀ r ∈ rest, (findCourse env r.courseId).isSome) →
      (∀ r ∈ acc, (findCourse env r.courseId).isSome) →
      rest.foldl (diversityStep env dF) acc
        = rest.foldl (diversitySpecStep env dF) acc := by
  intro rest
  induction rest with
  | nil => intro acc _ _; rfl
  | cons cand rest ih =>
    intro acc hrest hacc
    rw [List.foldl_cons, List.foldl_cons,
      diversityStep_eq_spec env dF acc cand (hrest cand (List.mem_cons_self ..)) hacc]
    apply ih _ (fun r hr => hrest r (List.mem_cons_of_mem _ hr))
    intro r hr
    unfold diversitySpecStep at hr
    split at hr
    · rcases List.mem_append.mp hr with h | h
      · exact hacc r h
      · rw [List.mem_singleton.mp h]
        exact hrest cand (List.mem_cons_self ..)
    · exact hacc r hr

theorem diversity_foldl_head (env : Env) (dF : ℚ) :
    ∀ (rest acc : List Combined), acc ≠ [] →
      (rest.foldl (diversityStep env dF) acc).head? = acc.head?
        ∧ rest.foldl (diversityStep env dF) acc ≠ [] := by
  intro rest
  induction rest with
  | nil => intro acc h; exact ⟨rfl, h⟩
  | cons cand rest ih =>
    intro acc h
    rw [List.foldl_cons]
    have hstep : (diversityStep env dF acc cand).head? = acc.head?
        ∧ diversityStep env dF acc cand ≠ [] := by
      unfold diversityStep
      split
      · exact ⟨rfl, h⟩
      · dsimp only
        split
        · constructor
          · cases acc with
            | nil => exact absurd rfl h
            | cons a t => simp
          · simp
        · exact ⟨rfl, h⟩
    obtain ⟨ih1, ih2⟩ := ih (diversityStep env dF acc cand) hstep.2
    exact ⟨ih1.trans hstep.1, ih2⟩

/-- C4: for every non-empty candidate list whose courseIds all resolve in
the store, the diversity filter keeps the top-scored (first) candidate,
and it accepts a subsequent candidate exactly when its pairwise course
similarity (0.4 for same category, plus 0.4 times skill overlap, plus 0.2
for same difficulty, see `calculateCourseSimilarity`) to every
already-accepted candidate is at most `1 - diversityFactor` — stated as
equality with `diversityFilterSpecRule`, whose acceptance condition is
that rule verbatim. -/
theorem applyDiversityFilter_spec (env : Env) (recs : List Combined) (dF : ℚ)
    (hne : recs ≠ [])
    (hres : ∀ r ∈ recs, (findCourse env r.courseId).isSome) :
    applyDiversityFilter env recs dF = diversityFilterSpecRule env recs dF
    ∧ (applyDiversityFilter env recs dF).head? = recs.head? := by
  cases recs with
  | nil => exact absurd rfl hne
  | cons top rest =>
    unfold applyDiversityFilter diversityFilterSpecRule
    by_cases hlen : (top :: rest).length ≤ 1
    · have hrest : rest = [] := by
        cases rest with
        | nil => rfl
        | cons a t => simp at hlen
      subst hrest
      rw [if_pos hlen]
      exact ⟨rfl, rfl⟩
    · rw [if_neg hlen]
      constructor
      · exact diversity_foldl_eq env dF rest [top]
          (fun r hr => hres r (List.mem_cons_of_mem _ hr))
          (fun r hr => by
            rw [List.mem_singleton.mp hr]
            exact hres top (List.mem_cons_self ..))
      · exact (diversity_foldl_head env dF rest [top] (by simp)).1

/-- Witness for C4 at a concrete input: two resolving candidates, default
diversity factor. -/
theorem applyDiversityFilter_spec_witness :
    applyDiversityFilter missingCourseEnv [⟨"c2", 0.8, []⟩, ⟨"c3", 0.7, []⟩] 0.3
        = diversityFilterSpecRule missingCourseEnv
            [⟨"c2", 0.8, []⟩, ⟨"c3", 0.7, []⟩] 0.3
      ∧ (applyDiversityFilter missingCourseEnv
          [⟨"c2", 0.8, []⟩, ⟨"c3", 0.7, []⟩] 0.3).head?
        = ([⟨"c2", 0.8, []⟩, ⟨"c3", 0.7, []⟩] : List Combined).head? :=
  applyDiversityFilter_spec missingCourseEnv [⟨"c2", 0.8, []⟩, ⟨"c3", 0.7, []⟩]
    0.3 (by decide) (by decide)

end REng

namespace SkillX

open JsStr

/-- Every run of `extractSkills` returns the empty list: when the four
methods produced no candidate the merge is empty, and when they produced
any candidate the deduplication call throws (the flat candidate array is
iterated as an array of arrays) and the outer catch returns `[]`. -/
theorem extractSkills_always_nil (text : Option String)
    (nlpTerms : Option (List String)) (patternSpans : List String)
    (sectionContents : List String) (opts : ExtractOptions) :
    extractSkills text nlpTerms patternSpans sectionContents opts = [] := by
  unfold extractSkills
  cases text with
  | none => rfl
  | some t =>
    dsimp only
    cases hcands : extractDirectMatches (preprocessChars t.toList)
        ++ extractWithPatterns patternSpans
        ++ extractWithNLP nlpTerms
        ++ extractWithContext sectionContents with
    | nil => simp [combineAndDeduplicateSkillsCall, hcands, sortDesc]
    | cons c cs => simp [combineAndDeduplicateSkillsCall, hcands]

/-- C1 (code bug): on "i know python and machine learning" the name
"machine learning" is produced by two methods (direct and partial match);
the merge the specification describes — `combineAndDeduplicateSkills`
applied to the array-of-arrays shape it iterates — yields one entry per
canonical name with the maximal confidence and both methods recorded;
but `extractSkills` hands the flat candidate array to that function, the
`skills.forEach` call throws a TypeError, the outer catch fires, and the
returned list is empty. -/
theorem extractSkills_dedup_result_lost :
    ((extractDirectMatches
        (preprocessChars ("i know python and machine learning".toList))).map
      (fun c => (c.name, c.confidence, c.method))
      = [("python", 0.9, "direct_match"),
         ("machine learning", 0.9, "direct_match"),
         ("machine learning", 0.7, "partial_match")])
    ∧ ((combineAndDeduplicateSkills
        [extractDirectMatches
          (preprocessChars ("i know python and machine learning".toList))]).map
        (fun e => (e.name, e.confidence, e.methods))
      = [("python", 0.9, ["direct_match"]),
         ("machine learning", 0.9, ["direct_match", "partial_match"])])
    ∧ extractSkills (some ("i know python and machine learning"))
        (some []) [] [] {} = [] :=
  ⟨by decide, by decide, extractSkills_always_nil _ _ _ _ _⟩

/-- C2 (code bug): `extractSkills` never raises (it is total and the
outer catch returns `[]` on every internal failure), and empty or
non-string input yields the empty list; but when the NLP pass fails
(`nlpTerms = none`) while the direct pass holds candidates, those
candidates are NOT returned as the claim asserts — the deduplication
TypeError erases them and the result is empty. -/
theorem extractSkills_failure_isolation_lost :
    extractDirectMatches (preprocessChars ("experience with python".toList)) ≠ []
    ∧ extractSkills (some ("experience with python")) none ["python"] [] {} = []
    ∧ extractSkills (some ("")) (some []) [] [] {} = []
    ∧ extractSkills none (some []) [] [] {} = [] :=
  ⟨by decide, extractSkills_always_nil _ _ _ _ _,
   extractSkills_always_nil _ _ _ _ _, extractSkills_always_nil _ _ _ _ _⟩

end SkillX

namespace SkillX

open JsStr

theorem toLower_of_isDigit {c : Char} (h : c.isDigit = true) : c.toLower = c := by
  unfold Char.toLower
  rw [if_neg]
  intro hcon
  simp only [Char.isDigit, Bool.and_eq_true, decide_eq_true_eq] at h
  have h9 : c ≤ '9' := h.2
  simp only [Char.le_def] at h9
  have h57 : c.toNat ≤ 57 := Nat.le_trans h9 (by decide)
  omega

theorem toLowerChars_digits_append (d : Chars) (t : Chars)
    (hd : ∀ c ∈ d, c.isDigit = true) :
    toLowerChars (d ++ t) = d ++ toLowerChars t := by
  unfold toLowerChars
  rw [List.map_append]
  congr 1
  rw [show d = List.map id d from (List.map_id d).symm]
  rw [List.map_map]
  exact List.map_congr_left (fun c hc => by
    simp only [Function.comp_apply, id]
    exact toLower_of_isDigit (hd c (by simpa using hc)))

theorem occsAux_skip_digits (pat : Chars) (p0 : Char)
    (hp : pat.head? = some p0) (hp0 : p0.isDigit = false) :
    ∀ (d : Chars), (∀ c ∈ d, c.isDigit = true) →
      ∀ (prev : Option Char) (i : Nat) (t : Chars),
        occsAux pat prev (d ++ t) i = occsAux pat (lastOption d prev) t (i + d.length) := by
  intro d
  induction d with
  | nil => intro _ prev i t; simp [lastOption]
  | cons c d ih =>
    intro hd prev i t
    have hcd : c.isDigit = true := hd c (List.mem_cons_self ..)
    obtain ⟨pt, hpat⟩ : ∃ pt, pat = p0 :: pt := by
      cases pat with
      | nil => simp at hp
      | cons a l =>
        simp only [List.head?_cons, Option.some.injEq] at hp
        exact ⟨l, by rw [hp]⟩
    rw [List.cons_append, occsAux]
    have hpref : isPrefB pat (c :: (d ++ t)) = false := by
      rw [hpat]
      unfold isPrefB
      have hbeq : (p0 == c) = false := by
        rw [beq_eq_false_iff_ne]
        intro hEq
        rw [hEq, hcd] at hp0
        cases hp0
      rw [hbeq, Bool.false_and]
    rw [hpref, Bool.false_and, Bool.false_and]
    simp only [Bool.false_eq_true, if_false, List.nil_append]
    rw [ih (fun x hx => hd x (List.mem_cons_of_mem _ hx)) (some c) (i + 1) t]
    have hlast : lastOption (c :: d) prev = lastOption d (some c) := rfl
    rw [hlast, List.length_cons]
    congr 1
    omega

theorem occsAux_python_tmpl (prev : Option Char) (i : Nat) :
    occsAux pyChars prev tmplChars i = [i + 10] := by
  simp [occsAux, tmplChars, pyChars, isPrefB, isWordOpt, isWordChar]

theorem boundaryOccs_template (d : Chars) (hd : ∀ c ∈ d, c.isDigit = true) :
    boundaryOccs pyChars (d ++ tmplChars) = [d.length + 10] := by
  unfold boundaryOccs
  rw [occsAux_skip_digits pyChars 'p' (by decide) (by decide) d hd none 0 tmplChars,
    occsAux_python_tmpl]
  congr 1
  omega

theorem extractSkillContext_template (d : Chars) (hd : ∀ c ∈ d, c.isDigit = true)
    (hlen : d.length ≤ 90) :
    extractSkillContext (d ++ tmplChars) pyChars = d ++ tmplChars := by
  unfold extractSkillContext
  rw [show toLowerChars pyChars = pyChars from by decide,
    toLowerChars_digits_append d tmplChars hd,
    show toLowerChars tmplChars = tmplChars from by decide,
    boundaryOccs_template d hd]
  simp only [List.map_cons, List.map_nil]
  rw [show pyChars.length = 6 from by decide]
  have hidx : d.length + 10 - 100 = 0 := by omega
  have hlen2 : (d ++ tmplChars).length = d.length + 16 := by
    rw [List.length_append]
    rfl
  rw [hidx, hlen2]
  have hmin : min (d.length + 16) (d.length + 10 + 6 + 100) = d.length + 16 := by
    omega
  rw [hmin, Nat.sub_zero, List.drop_zero]
  rw [← hlen2, List.take_length]
  rfl

theorem includesSub_shift_false (pat : Chars) (p0 : Char)
    (hp : pat.head? = some p0) (hp0 : p0.isDigit = false)
    {t : Chars} (ht : includesSub pat t = false)
    (d : Chars) (hd : ∀ c ∈ d, c.isDigit = true) :
    includesSub pat (d ++ t) = false := by
  induction d with
  | nil => simpa using ht
  | cons c d ih =>
    have hcd : c.isDigit = true := hd c (List.mem_cons_self ..)
    obtain ⟨pt, hpat⟩ : ∃ pt, pat = p0 :: pt := by
      cases pat with
      | nil => simp at hp
      | cons a l =>
        simp only [List.head?_cons, Option.some.injEq] at hp
        exact ⟨l, by rw [hp]⟩
    rw [List.cons_append, includesSub]
    have hbeq : (p0 == c) = false := by
      rw [beq_eq_false_iff_ne]
      intro hEq
      rw [hEq, hcd] at hp0
      cases hp0
    rw [hpat]
    unfold isPrefB
    rw [hbeq, Bool.false_and, Bool.false_or]
    rw [← hpat]
    exact ih (fun x hx => hd x (List.mem_cons_of_mem _ hx))

theorem subset_of_isPrefB : ∀ {pat s : Chars}, isPrefB pat s = true →
    ∀ a ∈ pat, a ∈ s := by
  intro pat
  induction pat with
  | nil => intro s _ a ha; cases ha
  | cons p ps ih =>
    intro s h a ha
    cases s with
    | nil => rw [isPrefB] at h; cases h
    | cons c cs =>
      rw [isPrefB, Bool.and_eq_true] at h
      rcases List.mem_cons.mp ha with rfl | ha2
      · rw [beq_iff_eq.mp h.1]
        exact List.mem_cons_self ..
      · exact List.mem_cons_of_mem _ (ih h.2 a ha2)

theorem mem_of_includesSub {pat s : Chars} (h : includesSub pat s = true) :
    ∀ a ∈ pat, a ∈ s := by
  induction s with
  | nil =>
    rw [includesSub] at h
    intro a ha
    cases pat with
    | nil => cases ha
    | cons p ps => simp at h
  | cons c cs ih =>
    rw [includesSub, Bool.or_eq_true] at h
    intro a ha
    rcases h with h | h
    · exact subset_of_isPrefB h a ha
    · exact List.mem_cons_of_mem _ (ih h a ha)

theorem includesSub_absent_char (pat : Chars) (a : Char) (ha : a ∈ pat)
    (hand : a.isDigit = false) {t : Chars} (hat : a ∉ t)
    (d : Chars) (hd : ∀ c ∈ d, c.isDigit = true) :
    includesSub pat (d ++ t) = false := by
  cases hinc : includesSub pat (d ++ t) with
  | false => rfl
  | true =>
    exfalso
    have := mem_of_includesSub hinc a ha
    rcases List.mem_append.mp this with h | h
    · rw [hd a h] at hand
      cases hand
    · exact hat h

theorem includesSub_shift_false2 (pat : Chars)
    (hp : (match pat with | [] => false | c :: _ => !c.isDigit) = true)
    {t : Chars} (ht : includesSub pat t = false)
    (d : Chars) (hd : ∀ c ∈ d, c.isDigit = true) :
    includesSub pat (d ++ t) = false := by
  cases pat with
  | nil => cases hp
  | cons p ps =>
    simp only [Bool.not_eq_true'] at hp
    exact includesSub_shift_false (p :: ps) p rfl hp ht d hd

theorem includesSub_one_year (d : Chars) (hd : ∀ c ∈ d, c.isDigit = true) :
    includesSub ("1 year".toList) (d ++ tmplChars)
      = decide (d.getLast? = some '1') := by
  induction d with
  | nil => decide
  | cons c d ih =>
    cases d with
    | nil =>
      by_cases hc : c = '1'
      · subst hc; decide
      · have h1 : ('1' == c) = false := by
          rw [beq_eq_false_iff_ne]
          exact fun h => hc h.symm
        simp only [List.singleton_append, includesSub, isPrefB, h1,
          Bool.false_and, Bool.false_or,
          show includesSub ("1 year".toList) tmplChars = false from by decide,
          List.getLast?_singleton]
        simp [hc]
    | cons c2 d2 =>
      have hc2 : c2.isDigit = true :=
        hd c2 (List.mem_cons_of_mem _ (List.mem_cons_self ..))
      have hsp : (' ' == c2) = false := by
        rw [beq_eq_false_iff_ne]
        intro hEq
        rw [← hEq] at hc2
        cases hc2
      rw [List.cons_append, includesSub]
      have hpref : isPrefB ("1 year".toList) (c :: (c2 :: d2 ++ tmplChars)) = false := by
        show (('1' == c) && isPrefB (" year".toList) (c2 :: d2 ++ tmplChars)) = false
        rw [List.cons_append]
        show (('1' == c) && ((' ' == c2) && isPrefB ("year".toList) (d2 ++ tmplChars))) = false
        rw [hsp, Bool.false_and, Bool.and_false]
      rw [hpref, Bool.false_or,
        ih (fun x hx => hd x (List.mem_cons_of_mem _ hx)),
        List.getLast?_cons_cons]

theorem takeWhile_append_all (p : Char → Bool) (l t : Chars)
    (h : ∀ x ∈ l, p x = true) :
    (l ++ t).takeWhile p = l ++ t.takeWhile p := by
  induction l with
  | nil => rfl
  | cons c l ih =>
    rw [List.cons_append, List.takeWhile_cons, h c (List.mem_cons_self ..)]
    rw [ih (fun x hx => h x (List.mem_cons_of_mem _ hx))]
    rfl

theorem dropWhile_append_all (p : Char → Bool) (l t : Chars)
    (h : ∀ x ∈ l, p x = true) :
    (l ++ t).dropWhile p = t.dropWhile p := by
  induction l with
  | nil => rfl
  | cons c l ih =>
    rw [List.cons_append, List.dropWhile_cons, h c (List.mem_cons_self ..)]
    exact ih (fun x hx => h x (List.mem_cons_of_mem _ hx))

theorem yearNums_template (d : Chars) (hne : d ≠ [])
    (hd : ∀ c ∈ d, c.isDigit = true) :
    yearNums (d ++ tmplChars) = [digitsToNat d] := by
  cases d with
  | nil => exact absurd rfl hne
  | cons c d0 =>
    have hd0 : ∀ x ∈ d0, x.isDigit = true :=
      fun x hx => hd x (List.mem_cons_of_mem _ hx)
    rw [List.cons_append]
    simp only [yearNums, hd c (List.mem_cons_self ..), if_true]
    rw [takeWhile_append_all Char.isDigit d0 tmplChars hd0,
      show tmplChars.takeWhile Char.isDigit = [] from by decide,
      List.append_nil,
      dropWhile_append_all Char.isDigit d0 tmplChars hd0,
      show tmplChars.dropWhile Char.isDigit = tmplChars from by decide,
      show tmplChars.dropWhile isSpaceChar = ("years of python".toList) from by decide,
      show startsYearWord ("years of python".toList) = true from by decide,
      show yearNums tmplChars = [] from by decide]
    simp

theorem digitsFold_last_one : ∀ (l : Chars) (a : Nat), l.getLast? = some '1' →
    1 ≤ l.foldl (fun a c => 10 * a + (c.toNat - '0'.toNat)) a := by
  intro l
  induction l with
  | nil => intro a h; simp at h
  | cons c l ih =>
    intro a h
    cases l with
    | nil =>
      simp only [List.getLast?_singleton, Option.some.injEq] at h
      subst h
      show 1 ≤ 10 * a + ('1'.toNat - '0'.toNat)
      have h1 : '1'.toNat - '0'.toNat = 1 := by decide
      omega
    | cons c2 l2 =>
      rw [List.getLast?_cons_cons] at h
      rw [List.foldl_cons]
      exact ih _ h

theorem digitsToNat_pos_of_last_one (d : Chars) (h : d.getLast? = some '1') :
    1 ≤ digitsToNat d :=
  digitsFold_last_one d 0 h

theorem levelScore_expert_template (d : Chars) (hne : d ≠ [])
    (hd : ∀ c ∈ d, c.isDigit = true) :
    levelScoreFor (d ++ tmplChars) "expert"
      ⟨["expert", "senior", "lead", "architect", "principal", "staff",
        "distinguished", "fellow"],
       ["8+", "9+", "10+", "5+ years", "6+ years", "7+ years", "8+ years",
        "9+ years", "10+ years"], 1.0⟩
      = (if 5 ≤ digitsToNat d then (0.8 : ℚ) else 0) := by
  unfold levelScoreFor
  rw [yearNums_template d hne hd]
  have hkw : (["expert", "senior", "lead", "architect", "principal", "staff",
      "distinguished", "fellow"].filter
        (fun kw => includesSub kw.toList (d ++ tmplChars))) = [] := by
    apply List.filter_eq_nil_iff.mpr
    intro kw hkw
    simp only [Bool.not_eq_true]
    fin_cases hkw <;>
      exact includesSub_shift_false2 _ (by decide) (by decide) d hd
  have hyr : (["8+", "9+", "10+", "5+ years", "6+ years", "7+ years",
      "8+ years", "9+ years", "10+ years"].filter
        (fun yp => includesSub yp.toList (d ++ tmplChars))) = [] := by
    apply List.filter_eq_nil_iff.mpr
    intro yp hyp
    simp only [Bool.not_eq_true]
    fin_cases hyp <;>
      exact includesSub_absent_char _ '+' (by decide) (by decide) (by decide) d hd
  rw [hkw, hyr]
  by_cases h5 : 5 ≤ digitsToNat d
  · simp [numericBucketScore, h5]
  · simp [numericBucketScore, h5]

theorem levelScore_advanced_template (d : Chars) (hne : d ≠ [])
    (hd : ∀ c ∈ d, c.isDigit = true) :
    levelScoreFor (d ++ tmplChars) "advanced"
      ⟨["advanced", "proficient", "experienced", "skilled", "strong",
        "solid", "extensive"],
       ["4+", "5+", "3+ years", "4+ years", "5+ years"], 0.8⟩
      = (if 3 ≤ digitsToNat d then (0.8 : ℚ) else 0) := by
  unfold levelScoreFor
  rw [yearNums_template d hne hd]
  have hkw : (["advanced", "proficient", "experienced", "skilled", "strong",
      "solid", "extensive"].filter
        (fun kw => includesSub kw.toList (d ++ tmplChars))) = [] := by
    apply List.filter_eq_nil_iff.mpr
    intro kw hkw
    simp only [Bool.not_eq_true]
    fin_cases hkw <;>
      exact includesSub_shift_false2 _ (by decide) (by decide) d hd
  have hyr : (["4+", "5+", "3+ years", "4+ years", "5+ years"].filter
        (fun yp => includesSub yp.toList (d ++ tmplChars))) = [] := by
    apply List.filter_eq_nil_iff.mpr
    intro yp hyp
    simp only [Bool.not_eq_true]
    fin_cases hyp <;>
      exact includesSub_absent_char _ '+' (by decide) (by decide) (by decide) d hd
  rw [hkw, hyr]
  by_cases h3 : 3 ≤ digitsToNat d
  · simp [numericBucketScore, h3]
  · simp [numericBucketScore, h3]

theorem levelScore_intermediate_template (d : Chars) (hne : d ≠ [])
    (hd : ∀ c ∈ d, c.isDigit = true) :
    levelScoreFor (d ++ tmplChars) "intermediate"
      ⟨["intermediate", "familiar", "working knowledge", "competent",
        "moderate", "some experience"],
       ["2+", "3+", "1+ years", "2+ years", "3+ years"], 0.6⟩
      = (if 1 ≤ digitsToNat d then (0.8 : ℚ) else 0) := by
  unfold levelScoreFor
  rw [yearNums_template d hne hd]
  have hkw : (["intermediate", "familiar", "working knowledge", "competent",
      "moderate", "some experience"].filter
        (fun kw => includesSub kw.toList (d ++ tmplChars))) = [] := by
    apply List.filter_eq_nil_iff.mpr
    intro kw hkw
    simp only [Bool.not_eq_true]
    fin_cases hkw <;>
      exact includesSub_shift_false2 _ (by decide) (by decide) d hd
  have hyr : (["2+", "3+", "1+ years", "2+ years", "3+ years"].filter
        (fun yp => includesSub yp.toList (d ++ tmplChars))) = [] := by
    apply List.filter_eq_nil_iff.mpr
    intro yp hyp
    simp only [Bool.not_eq_true]
    fin_cases hyp <;>
      exact includesSub_absent_char _ '+' (by decide) (by decide) (by decide) d hd
  rw [hkw, hyr]
  by_cases h1 : 1 ≤ digitsToNat d
  · simp [numericBucketScore, h1]
  · simp [numericBucketScore, h1]

theorem levelScore_beginner_template (d : Chars) (hne : d ≠ [])
    (hd : ∀ c ∈ d, c.isDigit = true) :
    levelScoreFor (d ++ tmplChars) "beginner"
      ⟨["beginner", "basic", "learning", "novice", "entry", "junior",
        "trainee", "intern"],
       ["<1", "0-1", "6 months", "1 year"], 0.3⟩
      = (if d.getLast? = some '1' then (0.24 : ℚ) else 0)
        + (if digitsToNat d < 1 then (0.8 : ℚ) else 0) := by
  unfold levelScoreFor
  rw [yearNums_template d hne hd]
  have hkw : (["beginner", "basic", "learning", "novice", "entry", "junior",
      "trainee", "intern"].filter
        (fun kw => includesSub kw.toList (d ++ tmplChars))) = [] := by
    apply List.filter_eq_nil_iff.mpr
    intro kw hkw
    simp only [Bool.not_eq_true]
    fin_cases hkw <;>
      exact includesSub_shift_false2 _ (by decide) (by decide) d hd
  have h1 : includesSub ("<1".toList) (d ++ tmplChars) = false :=
    includesSub_shift_false2 _ (by decide) (by decide) d hd
  have h2 : includesSub ("0-1".toList) (d ++ tmplChars) = false :=
    includesSub_absent_char _ '-' (by decide) (by decide) (by decide) d hd
  have h3 : includesSub ("6 months".toList) (d ++ tmplChars) = false :=
    includesSub_absent_char _ 'm' (by decide) (by decide) (by decide) d hd
  have h4 := includesSub_one_year d hd
  rw [hkw]
  simp only [List.filter_cons, h1, h2, h3, h4, List.filter_nil]
  by_cases hlast : d.getLast? = some '1'
  · by_cases hn : digitsToNat d < 1
    · exfalso
      have := digitsToNat_pos_of_last_one d hlast
      omega
    · simp [numericBucketScore, hlast, hn]
      norm_num
  · by_cases hn : digitsToNat d < 1
    · simp [numericBucketScore, hlast, hn]
    · simp [numericBucketScore, hlast, hn]

theorem analyzeSkillLevel_template (d : Chars) (hne : d ≠ [])
    (hd : ∀ c ∈ d, c.isDigit = true) (hlen : d.length ≤ 90) :
    analyzeSkillLevel (d ++ tmplChars) pyChars = yearBucket (digitsToNat d) := by
  unfold analyzeSkillLevel
  rw [extractSkillContext_template d hd hlen]
  dsimp only
  rw [toLowerChars_digits_append d tmplChars hd,
    show toLowerChars tmplChars = tmplChars from by decide]
  simp only [levelIndicators, List.map_cons, List.map_nil]
  rw [levelScore_expert_template d hne hd,
    levelScore_advanced_template d hne hd,
    levelScore_intermediate_template d hne hd,
    levelScore_beginner_template d hne hd]
  unfold bestLevel yearBucket
  by_cases h5 : 5 ≤ digitsToNat d
  · have h3 : 3 ≤ digitsToNat d := by omega
    have h1 : 1 ≤ digitsToNat d := by omega
    have h0 : ¬ digitsToNat d < 1 := by omega
    simp only [if_pos h5, if_pos h3, if_pos h1, if_neg h0,
      List.foldl_cons, List.foldl_nil]
    by_cases hlast : d.getLast? = some '1' <;>
      simp [hlast] <;> norm_num
  · by_cases h3 : 3 ≤ digitsToNat d
    · have h1 : 1 ≤ digitsToNat d := by omega
      have h0 : ¬ digitsToNat d < 1 := by omega
      simp only [if_neg h5, if_pos h3, if_pos h1, if_neg h0,
        List.foldl_cons, List.foldl_nil]
      by_cases hlast : d.getLast? = some '1' <;>
        simp [hlast] <;> norm_num
    · by_cases h1 : 1 ≤ digitsToNat d
      · have h0 : ¬ digitsToNat d < 1 := by omega
        simp only [if_neg h5, if_neg h3, if_pos h1, if_neg h0,
          List.foldl_cons, List.foldl_nil]
        by_cases hlast : d.getLast? = some '1' <;>
          simp [hlast] <;> norm_num
      · have h0 : digitsToNat d < 1 := by omega
        have hlast : ¬ d.getLast? = some '1' := by
          intro hc
          have := digitsToNat_pos_of_last_one d hc
          omega
        simp only [if_neg h5, if_neg h3, if_neg h1, if_pos h0, if_neg hlast,
          List.foldl_cons, List.foldl_nil]
        norm_num

theorem levelRank_yearBucket (n : Nat) :
    levelRank (yearBucket n)
      = if 5 ≤ n then 3 else if 3 ≤ n then 2 else if 1 ≤ n then 1 else 0 := by
  unfold yearBucket levelRank
  by_cases h5 : 5 ≤ n <;> by_cases h3 : 3 ≤ n <;> by_cases h1 : 1 ≤ n <;>
    simp [h5, h3, h1]

/-- C8 (amended): on texts of the exact template "<digits> years of python"
(the claim's example form, around the skill "python"), with the digit
string at most 90 digits long — so that the parsed number still sits
inside the ±100-character context window — the level returned by
`analyzeSkillLevel` is monotonically non-decreasing in the numeric value
of the stated years, under beginner < intermediate < advanced < expert.
For texts outside this template the claim is false (see the
counterexample: a level keyword sliding out of the shifted window makes
the level drop as the number grows). -/
theorem analyzeSkillLevel_monotone_on_template (d1 d2 : Chars)
    (h1 : d1 ≠ []) (hd1 : ∀ c ∈ d1, c.isDigit = true) (hl1 : d1.length ≤ 90)
    (h2 : d2 ≠ []) (hd2 : ∀ c ∈ d2, c.isDigit = true) (hl2 : d2.length ≤ 90)
    (hle : digitsToNat d1 ≤ digitsToNat d2) :
    levelRank (analyzeSkillLevel (yearsTemplate d1) ("python".toList))
      ≤ levelRank (analyzeSkillLevel (yearsTemplate d2) ("python".toList)) := by
  rw [show yearsTemplate d1 = d1 ++ tmplChars from rfl,
    show yearsTemplate d2 = d2 ++ tmplChars from rfl,
    show "python".toList = pyChars from rfl,
    analyzeSkillLevel_template d1 h1 hd1 hl1,
    analyzeSkillLevel_template d2 h2 hd2 hl2,
    levelRank_yearBucket, levelRank_yearBucket]
  repeat' split
  all_goals omega

/-- Witness for the amended C8 at the claim's own example numbers:
"2 years of python" gives intermediate, "6 years of python" gives expert,
a non-decreasing step. -/
theorem analyzeSkillLevel_monotone_witness :
    levelRank (analyzeSkillLevel (yearsTemplate ['2']) ("python".toList))
      ≤ levelRank (analyzeSkillLevel (yearsTemplate ['6']) ("python".toList))
    ∧ analyzeSkillLevel (yearsTemplate ['2']) ("python".toList) = "intermediate"
    ∧ analyzeSkillLevel (yearsTemplate ['6']) ("python".toList) = "expert" :=
  ⟨analyzeSkillLevel_monotone_on_template ['2'] ['6'] (by decide) (by decide)
    (by decide) (by decide) (by decide) (by decide) (by decide),
   by decide, by decide⟩

/-- Counterexample for C8 as stated: `slideText9` and `slideText10`
differ only in the stated years-of-experience number around "python"
(9 versus 10), yet the returned level DROPS from expert to advanced —
the extra digit shifts the skill mention, and with it the ±100-character
context window, one character to the right, pushing the word "expert"
out of the window. -/
theorem analyzeSkillLevel_years_not_monotone :
    analyzeSkillLevel slideText9.toList ("python".toList) = "expert"
    ∧ analyzeSkillLevel slideText10.toList ("python".toList) = "advanced"
    ∧ levelRank ("advanced") < levelRank ("expert") :=
  ⟨by decide, by decide, by decide⟩

end SkillX
